import Mathlib

/-!
Shallow embedding of the CDP stablecoin contract from
`src/contracts/cdp/src/lib.rs`.

Machine integers (`u128`, `u64`, `u16`) are modelled as `Nat`; every
`checked_mul` / `checked_add` of the Rust source becomes an explicit
`Option`-valued operation that fails (returns `none`) when the result
would reach `2 ^ 128`, matching the abort-on-overflow behaviour of the
contract.  A Rust `require!` / `panic` aborts the whole NEAR call and
reverts all state, so every contract entry point is modelled as a
function `Contract → ... → Option Contract`: `none` is a rejected call
with no state change, `some s` is the committed post-state.

Maps (`LookupMap`, `UnorderedMap`, `BTreeMap`) are modelled as
association lists with a normalising insert (`alset` removes the old
binding first).  The fungible-token ledger of the stablecoin is out of
scope per the specification (section 1); it is modelled from the spec as
the collaborator interface `mint(account, amount)` / `burn(account,
amount)` / `balance_of(account)` over a total balance map with default
balance zero (`nusdDeposit`, `nusdWithdraw` below).  The one-yoctoNEAR
attachment checks and gas accounting are transport-level and carry no
state, so they are elided; authorization checks (`assert_owner`, the
oracle check) are kept.
-/

namespace CDP

def U128LIM : Nat := 2 ^ 128

def I128LIM : Nat := 2 ^ 127

def BPS_DENOMINATOR : Nat := 10000

def REWARD_SCALE : Nat := 10 ^ 24

def U64MAX : Nat := 2 ^ 64 - 1

/-- Association-list lookup (first binding wins, like the NEAR maps). -/
def alget {α β : Type} [DecidableEq α] : List (α × β) → α → Option β
  | [], _ => none
  | (k', v) :: rest, k => if k' = k then some v else alget rest k

/-- Remove every binding of a key. -/
def alrem {α β : Type} [DecidableEq α] : List (α × β) → α → List (α × β)
  | [], _ => []
  | (k', v) :: rest, k => if k' = k then alrem rest k else (k', v) :: alrem rest k

/-- Insert or replace the binding of a key. -/
def alset {α β : Type} [DecidableEq α] (l : List (α × β)) (k : α) (v : β) : List (α × β) :=
  (k, v) :: alrem l k

def checkedAdd (a b : Nat) : Option Nat :=
  if a + b < U128LIM then some (a + b) else none

def checkedMul (a b : Nat) : Option Nat :=
  if a * b < U128LIM then some (a * b) else none

/-- The Rust cast `x as i128` on a `u128` value (two's-complement wrap). -/
def i128ofU128 (x : Nat) : Int :=
  if x < I128LIM then (x : Int) else (x : Int) - (U128LIM : Int)

inductive StabilityPoolMode : Type
  | Dedicated : StabilityPoolMode
  | Shared : StabilityPoolMode
deriving DecidableEq, Repr

structure CollateralConfigInternal : Type where
  oraclePriceId : String
  minCollateralRatioBps : Nat
  recoveryCollateralRatioBps : Nat
  debtCeiling : Nat
  liquidationPenaltyBps : Nat
  stabilityPoolMode : StabilityPoolMode
deriving DecidableEq, Repr

structure TroveInternal : Type where
  ownerId : Nat
  collateralId : Nat
  collateralAmount : Nat
  debtAmount : Nat
  lastUpdateTimestamp : Nat
deriving DecidableEq, Repr

structure PriceFeedInternal : Type where
  price : Nat
  decimals : Nat
  lastUpdateTimestamp : Nat
deriving DecidableEq, Repr

structure StabilityDeposit : Type where
  shares : Nat
  rewardDebt : List (Nat × Nat)
  epoch : Nat
deriving DecidableEq, Repr

def StabilityDeposit.new (epoch : Nat) : StabilityDeposit :=
  { shares := 0, rewardDebt := [], epoch := epoch }

/-- `StabilityDeposit::amount`: the stablecoin value of a deposit record. -/
def StabilityDeposit.amount (dep : StabilityDeposit) (totalNusd totalShares : Nat) :
    Option Nat :=
  if dep.shares = 0 ∨ totalShares = 0 ∨ totalNusd = 0 then some 0
  else
    match checkedMul dep.shares totalNusd with
    | none => none
    | some m => some (m / totalShares)

structure Contract : Type where
  contractId : Nat
  ownerId : Nat
  intentRouterId : Nat
  pythOracleId : Nat
  configs : List (Nat × CollateralConfigInternal)
  troves : List ((Nat × Nat) × TroveInternal)
  totalDebt : List (Nat × Nat)
  priceFeeds : List (Nat × PriceFeedInternal)
  stabilityPoolDeposits : List (Nat × StabilityDeposit)
  collateralRewards : List ((Nat × Nat) × Nat)
  rewardPerShare : List (Nat × Nat)
  stabilityPoolTotalShares : Nat
  stabilityPoolTotalNusd : Nat
  stabilityPoolEpoch : Nat
  nusd : List (Nat × Nat)
deriving DecidableEq, Repr

/-- `Contract::new`: fresh contract with empty maps and zeroed pool state. -/
def Contract.new (contractId ownerId intentRouterId pythOracleId : Nat) : Contract :=
  { contractId := contractId
    ownerId := ownerId
    intentRouterId := intentRouterId
    pythOracleId := pythOracleId
    configs := []
    troves := []
    totalDebt := []
    priceFeeds := []
    stabilityPoolDeposits := []
    collateralRewards := []
    rewardPerShare := []
    stabilityPoolTotalShares := 0
    stabilityPoolTotalNusd := 0
    stabilityPoolEpoch := 0
    nusd := [] }

/-- Modelled from the spec: the external fungible-ledger collaborator only
exposes `balance_of(account)`; balances default to zero. -/
def nusdBalance (s : Contract) (a : Nat) : Nat :=
  (alget s.nusd a).getD 0

/-- Modelled from the spec: ledger `mint(account, amount)` (also the
internal credit half of a transfer); aborts on `u128` overflow. -/
def nusdDeposit (s : Contract) (a : Nat) (amount : Nat) : Option Contract :=
  match checkedAdd (nusdBalance s a) amount with
  | none => none
  | some b => some { s with nusd := alset s.nusd a b }

/-- Modelled from the spec: ledger `burn(account, amount)` (also the
debit half of a transfer); aborts when the balance is insufficient. -/
def nusdWithdraw (s : Contract) (a : Nat) (amount : Nat) : Option Contract :=
  if amount ≤ nusdBalance s a then
    some { s with nusd := alset s.nusd a (nusdBalance s a - amount) }
  else none

/-- `Contract::decimals_factor`. -/
def decimalsFactor (decimals : Nat) : Nat := 10 ^ decimals

/-- `Contract::collateral_ratio`: basis-point collateralization ratio;
`u128::MAX` sentinel for a debt-free trove, checked multiplications. -/
def collateralRatioBps (collateral debt : Nat) (price : PriceFeedInternal) :
    Option Nat :=
  if debt = 0 then some (U128LIM - 1)
  else
    match checkedMul collateral price.price with
    | none => none
    | some v0 =>
      let value := v0 / decimalsFactor price.decimals
      match checkedMul value BPS_DENOMINATOR with
      | none => none
      | some r => some (r / debt)

/-- `Contract::send_collateral`: external transfer request; the contract
only requires a positive amount before issuing it. -/
def sendCollateral (amount : Nat) : Option Unit :=
  if amount = 0 then none else some ()

/-- `Contract::save_trove`. -/
def saveTrove (s : Contract) (ownerId : Nat) (collateralId : Nat)
    (t : TroveInternal) : Contract :=
  { s with troves := alset s.troves (ownerId, collateralId) t }

/-- `Contract::add_total_debt`: signed adjustment of the per-asset total,
ceiling-checked on increases, underflow-checked on decreases, entry
removed when the total reaches zero. -/
def addTotalDebt (s : Contract) (collateralId : Nat) (delta : Int) : Option Contract :=
  let total := (alget s.totalDebt collateralId).getD 0
  if 0 ≤ delta then
    match checkedAdd total delta.toNat with
    | none => none
    | some increased =>
      match alget s.configs collateralId with
      | none => none
      | some config =>
        if increased ≤ config.debtCeiling then
          some { s with
            totalDebt :=
              if increased = 0 then alrem s.totalDebt collateralId
              else alset s.totalDebt collateralId increased }
        else none
  else
    let reduction := (-delta).toNat
    if reduction ≤ total then
      some { s with
        totalDebt :=
          if total - reduction = 0 then alrem s.totalDebt collateralId
          else alset s.totalDebt collateralId (total - reduction) }
    else none

/-- `Contract::register_collateral` (owner-only): rejects an MCR below
1100 bps and a recovery ratio below the MCR, then stores the config
(overwriting any previous registration without further checks). -/
def registerCollateral (s : Contract) (caller : Nat) (tokenId : Nat)
    (config : CollateralConfigInternal) : Option Contract :=
  if caller = s.ownerId then
    if 1100 ≤ config.minCollateralRatioBps then
      if config.minCollateralRatioBps ≤ config.recoveryCollateralRatioBps then
        some { s with configs := alset s.configs tokenId config }
      else none
    else none
  else none

/-- `Contract::submit_price` (oracle-only): rejects decimals above 18 and
a non-positive price, then overwrites the feed wholesale. -/
def submitPrice (s : Contract) (caller : Nat) (collateralId : Nat)
    (price : Nat) (decimals now : Nat) : Option Contract :=
  if caller = s.pythOracleId then
    if decimals ≤ 18 then
      if 0 < price then
        some { s with
          priceFeeds :=
            alset s.priceFeeds collateralId
              { price := price, decimals := decimals, lastUpdateTimestamp := now } }
      else none
    else none
  else none

/-- `Contract::internal_deposit_collateral` (the `ft_on_transfer`
`DepositCollateral` path): lazily creates the trove and adds collateral. -/
def internalDepositCollateral (s : Contract) (ownerId : Nat)
    (collateralId : Nat) (amount : Nat) (now : Nat) : Option Contract :=
  if amount = 0 then none
  else
    match alget s.configs collateralId with
    | none => none
    | some _ =>
      let trove := (alget s.troves (ownerId, collateralId)).getD
        { ownerId := ownerId, collateralId := collateralId, collateralAmount := 0
          debtAmount := 0, lastUpdateTimestamp := now }
      match checkedAdd trove.collateralAmount amount with
      | none => none
      | some coll =>
        some (saveTrove s ownerId collateralId
          { trove with collateralAmount := coll, lastUpdateTimestamp := now })

/-- `Contract::borrow`: ceiling check on the new trove debt, MCR check at
the current price, then commit debt, bump the asset total and mint. -/
def borrow (s : Contract) (caller : Nat) (collateralId : Nat)
    (amount : Nat) (now : Nat) : Option Contract :=
  if amount = 0 then none
  else
    match alget s.troves (caller, collateralId) with
    | none => none
    | some trove =>
      match alget s.configs collateralId with
      | none => none
      | some config =>
        match alget s.priceFeeds collateralId with
        | none => none
        | some price =>
          match checkedAdd trove.debtAmount amount with
          | none => none
          | some newDebt =>
            if newDebt ≤ config.debtCeiling then
              match collateralRatioBps trove.collateralAmount newDebt price with
              | none => none
              | some r =>
                if config.minCollateralRatioBps ≤ r then
                  let s1 := saveTrove s caller collateralId
                    { trove with debtAmount := newDebt, lastUpdateTimestamp := now }
                  match addTotalDebt s1 collateralId (i128ofU128 amount) with
                  | none => none
                  | some s2 => nusdDeposit s2 caller amount
                else none
            else none

/-- `Contract::internal_repay`. -/
def internalRepay (s : Contract) (ownerId : Nat) (collateralId : Nat)
    (amount : Nat) (now : Nat) : Option Contract :=
  match alget s.troves (ownerId, collateralId) with
  | none => none
  | some trove =>
    if amount ≤ trove.debtAmount then
      let s1 := saveTrove s ownerId collateralId
        { trove with debtAmount := trove.debtAmount - amount, lastUpdateTimestamp := now }
      addTotalDebt s1 collateralId (-(i128ofU128 amount))
    else none

/-- `Contract::repay`: burn from the caller then reduce trove and total
debt.  The `ft_on_transfer` `RepayDebt` path net-performs the same
burn-plus-`internal_repay` on the sender and is subsumed by this step. -/
def repay (s : Contract) (caller : Nat) (collateralId : Nat)
    (amount : Nat) (now : Nat) : Option Contract :=
  if amount = 0 then none
  else
    match nusdWithdraw s caller amount with
    | none => none
    | some s1 => internalRepay s1 caller collateralId amount now

/-- `Contract::withdraw_collateral`: reduce collateral, re-check the MCR
whenever debt remains, save, then request the external transfer (which
requires a positive amount). -/
def withdrawCollateral (s : Contract) (caller : Nat) (collateralId : Nat)
    (amount : Nat) (now : Nat) : Option Contract :=
  match alget s.troves (caller, collateralId) with
  | none => none
  | some trove =>
    if amount ≤ trove.collateralAmount then
      let coll := trove.collateralAmount - amount
      let commit : Option Contract :=
        match sendCollateral amount with
        | none => none
        | some _ =>
          some (saveTrove s caller collateralId
            { trove with collateralAmount := coll, lastUpdateTimestamp := now })
      if 0 < trove.debtAmount then
        match alget s.priceFeeds collateralId with
        | none => none
        | some price =>
          match alget s.configs collateralId with
          | none => none
          | some config =>
            match collateralRatioBps coll trove.debtAmount price with
            | none => none
            | some r =>
              if config.minCollateralRatioBps ≤ r then commit else none
      else commit
    else none

/-- `Contract::close_trove`: requires zero debt and nonzero collateral,
removes the trove, sends the full collateral. -/
def closeTrove (s : Contract) (caller : Nat) (collateralId : Nat) :
    Option Contract :=
  match alget s.troves (caller, collateralId) with
  | none => none
  | some trove =>
    if trove.debtAmount = 0 then
      let s1 := { s with troves := alrem s.troves (caller, collateralId) }
      if trove.collateralAmount = 0 then none
      else
        match sendCollateral trove.collateralAmount with
        | none => none
        | some _ => some s1
    else none

/-- `Contract::reward_per_share_keys`. -/
def rewardPerShareKeys (s : Contract) : List Nat :=
  s.rewardPerShare.map Prod.fst

/-- `Contract::enqueue_collateral_reward`: additive credit to the
claimable ledger, no-op for a zero amount. -/
def enqueueCollateralReward (s : Contract) (accountId : Nat)
    (collateralId : Nat) (amount : Nat) : Option Contract :=
  if amount = 0 then some s
  else
    match checkedAdd ((alget s.collateralRewards (accountId, collateralId)).getD 0) amount with
    | none => none
    | some current =>
      some { s with
        collateralRewards := alset s.collateralRewards (accountId, collateralId) current }

/-- The per-key credit loop of `Contract::ensure_deposit_epoch`: for each
known reward asset, credit `shares * (global - paid) / REWARD_SCALE`. -/
def settlePendingOverKeys (s : Contract) (accountId : Nat) (shares : Nat)
    (rewardDebt : List (Nat × Nat)) : List Nat → Option Contract
  | [] => some s
  | collateralId :: rest =>
    let global := (alget s.rewardPerShare collateralId).getD 0
    let paid := (alget rewardDebt collateralId).getD 0
    if paid < global then
      match checkedMul shares (global - paid) with
      | none => none
      | some m =>
        match enqueueCollateralReward s accountId collateralId (m / REWARD_SCALE) with
        | none => none
        | some s1 => settlePendingOverKeys s1 accountId shares rewardDebt rest
    else settlePendingOverKeys s accountId shares rewardDebt rest

/-- `Contract::ensure_deposit_epoch`: a record from a stale epoch first
gets its pending rewards (computed against the accumulator values at the
time of this call) credited, then its shares are wiped and its epoch
advanced. -/
def ensureDepositEpoch (s : Contract) (accountId : Nat)
    (dep : StabilityDeposit) : Option (Contract × StabilityDeposit) :=
  if dep.epoch = s.stabilityPoolEpoch then some (s, dep)
  else
    match
      (if 0 < dep.shares then
        settlePendingOverKeys s accountId dep.shares dep.rewardDebt (rewardPerShareKeys s)
      else some s)
    with
    | none => none
    | some s1 =>
      some (s1, { shares := 0, rewardDebt := [], epoch := s1.stabilityPoolEpoch })

/-- The per-key loop of `Contract::settle_stability_rewards`: credit
pending rewards and advance the per-asset `reward_debt` snapshot. -/
def settleOverKeys (s : Contract) (accountId : Nat) (shares : Nat)
    (rewardDebt : List (Nat × Nat)) : List Nat → Option (Contract × List (Nat × Nat))
  | [] => some (s, rewardDebt)
  | collateralId :: rest =>
    let global := (alget s.rewardPerShare collateralId).getD 0
    let paid := (alget rewardDebt collateralId).getD 0
    if paid < global then
      match checkedMul shares (global - paid) with
      | none => none
      | some m =>
        match enqueueCollateralReward s accountId collateralId (m / REWARD_SCALE) with
        | none => none
        | some s1 =>
          settleOverKeys s1 accountId shares (alset rewardDebt collateralId global) rest
    else settleOverKeys s accountId shares (alset rewardDebt collateralId global) rest

/-- `Contract::settle_stability_rewards`. -/
def settleStabilityRewards (s : Contract) (accountId : Nat) : Option Contract :=
  let dep0 := (alget s.stabilityPoolDeposits accountId).getD
    (StabilityDeposit.new s.stabilityPoolEpoch)
  match ensureDepositEpoch s accountId dep0 with
  | none => none
  | some (s1, dep) =>
    if dep.shares = 0 ∨ s1.stabilityPoolTotalShares = 0 then
      some { s1 with stabilityPoolDeposits := alset s1.stabilityPoolDeposits accountId dep }
    else
      match settleOverKeys s1 accountId dep.shares dep.rewardDebt (rewardPerShareKeys s1) with
      | none => none
      | some (s2, rd) =>
        if rewardPerShareKeys s1 = [] then some s2
        else
          some { s2 with
            stabilityPoolDeposits :=
              alset s2.stabilityPoolDeposits accountId { dep with rewardDebt := rd } }

/-- `Contract::shares_from_amount`: bootstrap 1:1 pricing on an empty
pool, otherwise `amount * total_shares / total_pooled_stablecoin`. -/
def sharesFromAmount (s : Contract) (amount : Nat) : Option Nat :=
  if s.stabilityPoolTotalShares = 0 ∨ s.stabilityPoolTotalNusd = 0 then some amount
  else
    match checkedMul amount s.stabilityPoolTotalShares with
    | none => none
    | some m => some (m / s.stabilityPoolTotalNusd)

/-- `Contract::shares_for_withdraw`. -/
def sharesForWithdraw (s : Contract) (amount : Nat) : Option Nat :=
  sharesFromAmount s amount

/-- The snapshot loop of `Contract::sync_reward_debt_snapshot`. -/
def syncRdOverKeys (s : Contract) (rewardDebt : List (Nat × Nat)) :
    List Nat → List (Nat × Nat)
  | [] => rewardDebt
  | collateralId :: rest =>
    syncRdOverKeys s
      (alset rewardDebt collateralId ((alget s.rewardPerShare collateralId).getD 0)) rest

/-- `Contract::sync_reward_debt_snapshot`. -/
def syncRewardDebtSnapshot (s : Contract) (dep : StabilityDeposit) : StabilityDeposit :=
  { dep with rewardDebt := syncRdOverKeys s dep.rewardDebt (rewardPerShareKeys s) }

/-- `Contract::deposit_to_stability_pool`. -/
def depositToStabilityPool (s : Contract) (caller : Nat) (amount : Nat) :
    Option Contract :=
  if amount = 0 then none
  else
    match settleStabilityRewards s caller with
    | none => none
    | some s1 =>
      let dep0 := (alget s1.stabilityPoolDeposits caller).getD
        (StabilityDeposit.new s1.stabilityPoolEpoch)
      match ensureDepositEpoch s1 caller dep0 with
      | none => none
      | some (s2, dep) =>
        match sharesFromAmount s2 amount with
        | none => none
        | some shares =>
          if shares = 0 then none
          else
            match checkedAdd dep.shares shares with
            | none => none
            | some depShares =>
              match checkedAdd s2.stabilityPoolTotalShares shares with
              | none => none
              | some poolShares =>
                match checkedAdd s2.stabilityPoolTotalNusd amount with
                | none => none
                | some poolNusd =>
                  let s3 := { s2 with
                    stabilityPoolTotalShares := poolShares
                    stabilityPoolTotalNusd := poolNusd }
                  let dep1 := syncRewardDebtSnapshot s3 { dep with shares := depShares }
                  let s4 := { s3 with
                    stabilityPoolDeposits := alset s3.stabilityPoolDeposits caller dep1 }
                  match nusdWithdraw s4 caller amount with
                  | none => none
                  | some s5 => nusdDeposit s5 s5.contractId amount

/-- `Contract::withdraw_from_stability_pool`. -/
def withdrawFromStabilityPool (s : Contract) (caller : Nat)
    (amountOpt : Option Nat) : Option Contract :=
  match settleStabilityRewards s caller with
  | none => none
  | some s1 =>
    let dep0 := (alget s1.stabilityPoolDeposits caller).getD
      (StabilityDeposit.new s1.stabilityPoolEpoch)
    match ensureDepositEpoch s1 caller dep0 with
    | none => none
    | some (s2, dep) =>
      if dep.shares = 0 then none
      else
        match dep.amount s2.stabilityPoolTotalNusd s2.stabilityPoolTotalShares with
        | none => none
        | some available =>
          if available = 0 then none
          else
            let requested := amountOpt.getD available
            if requested = 0 then none
            else if available < requested then none
            else
              match sharesForWithdraw s2 requested with
              | none => none
              | some shares =>
                if shares = 0 then none
                else if dep.shares < shares then none
                else if s2.stabilityPoolTotalShares < shares then none
                else if s2.stabilityPoolTotalNusd < requested then none
                else
                  let s3 := { s2 with
                    stabilityPoolTotalShares := s2.stabilityPoolTotalShares - shares
                    stabilityPoolTotalNusd := s2.stabilityPoolTotalNusd - requested
                    stabilityPoolDeposits :=
                      alset s2.stabilityPoolDeposits caller
                        { dep with shares := dep.shares - shares } }
                  match nusdWithdraw s3 s3.contractId requested with
                  | none => none
                  | some s4 => nusdDeposit s4 caller requested

/-- `Contract::claim_collateral`: decrement-then-transfer payout of the
claimable ledger, deleting the entry when it reaches zero. -/
def claimCollateral (s : Contract) (accountId : Nat) (collateralId : Nat)
    (amountOpt : Option Nat) : Option Contract :=
  let claimable := (alget s.collateralRewards (accountId, collateralId)).getD 0
  if claimable = 0 then none
  else
    let toClaim := amountOpt.getD claimable
    if toClaim = 0 then none
    else if claimable < toClaim then none
    else
      let s1 := { s with
        collateralRewards :=
          if claimable - toClaim = 0 then alrem s.collateralRewards (accountId, collateralId)
          else alset s.collateralRewards (accountId, collateralId) (claimable - toClaim) }
      match sendCollateral toClaim with
      | none => none
      | some _ => some s1

/-- `Contract::claim_collateral_reward`. -/
def claimCollateralReward (s : Contract) (caller : Nat) (collateralId : Nat)
    (amountOpt : Option Nat) : Option Contract :=
  match settleStabilityRewards s caller with
  | none => none
  | some s1 => claimCollateral s1 caller collateralId amountOpt

/-- `Contract::accrue_reward_per_share`: reward routed to the protocol
owner when there are no shares, otherwise added to the fixed-point
accumulator. -/
def accrueRewardPerShare (s : Contract) (collateralId : Nat)
    (rewardAmount : Nat) : Option Contract :=
  if rewardAmount = 0 then some s
  else if s.stabilityPoolTotalShares = 0 then
    enqueueCollateralReward s s.ownerId collateralId rewardAmount
  else
    match checkedMul rewardAmount REWARD_SCALE with
    | none => none
    | some m =>
      match checkedAdd ((alget s.rewardPerShare collateralId).getD 0)
          (m / s.stabilityPoolTotalShares) with
      | none => none
      | some accrued =>
        some { s with rewardPerShare := alset s.rewardPerShare collateralId accrued }

/-- `Contract::burn_from_stability_pool`: burn pooled stablecoin; when the
pool hits exactly zero, wipe total shares and bump the epoch
(`saturating_add` on the `u64` counter). -/
def burnFromStabilityPool (s : Contract) (amount : Nat) : Option Contract :=
  if amount = 0 then none
  else if s.stabilityPoolTotalNusd < amount then none
  else
    let s1 := { s with stabilityPoolTotalNusd := s.stabilityPoolTotalNusd - amount }
    match nusdWithdraw s1 s1.contractId amount with
    | none => none
    | some s2 =>
      if s2.stabilityPoolTotalNusd = 0 then
        some { s2 with
          stabilityPoolTotalShares := 0
          stabilityPoolEpoch := min (s2.stabilityPoolEpoch + 1) U64MAX }
      else some s2

/-- `Contract::redeem`: burn stablecoin against a targeted trove at the
oracle price, credit the collateral to the redeemer claimable ledger. -/
def redeem (s : Contract) (caller : Nat) (collateralId : Nat)
    (troveOwner : Nat) (amount : Nat) (now : Nat) : Option Contract :=
  if amount = 0 then none
  else
    match alget s.troves (troveOwner, collateralId) with
    | none => none
    | some trove =>
      if amount ≤ trove.debtAmount then
        match alget s.priceFeeds collateralId with
        | none => none
        | some price =>
          match checkedMul amount (decimalsFactor price.decimals) with
          | none => none
          | some m =>
            let collateralOut := m / price.price
            if collateralOut = 0 then none
            else if trove.collateralAmount < collateralOut then none
            else
              let trove1 : TroveInternal := { trove with
                debtAmount := trove.debtAmount - amount
                collateralAmount := trove.collateralAmount - collateralOut
                lastUpdateTimestamp := now }
              let s1 :=
                if trove1.debtAmount = 0 ∧ trove1.collateralAmount = 0 then
                  { s with troves := alrem s.troves (troveOwner, collateralId) }
                else saveTrove s troveOwner collateralId trove1
              match addTotalDebt s1 collateralId (-(i128ofU128 amount)) with
              | none => none
              | some s2 =>
                match nusdWithdraw s2 caller amount with
                | none => none
                | some s3 => enqueueCollateralReward s3 caller collateralId collateralOut
      else none

/-- The batch loop of `Contract::liquidate`: skip missing or debt-free or
healthy troves; a pool balance below a candidate trove debt aborts the
whole call. -/
def liquidateLoop (collateralId : Nat) (price : PriceFeedInternal)
    (config : CollateralConfigInternal) :
    Contract → List Nat → Nat → Option (Contract × Nat)
  | s, [], processed => some (s, processed)
  | s, owner :: rest, processed =>
    match alget s.troves (owner, collateralId) with
    | none => liquidateLoop collateralId price config s rest processed
    | some trove =>
      if trove.debtAmount = 0 then liquidateLoop collateralId price config s rest processed
      else
        match collateralRatioBps trove.collateralAmount trove.debtAmount price with
        | none => none
        | some r =>
          if config.minCollateralRatioBps ≤ r then
            liquidateLoop collateralId price config s rest processed
          else if s.stabilityPoolTotalNusd < trove.debtAmount then none
          else
            match checkedMul trove.collateralAmount config.liquidationPenaltyBps with
            | none => none
            | some pm =>
              let penalty := pm / BPS_DENOMINATOR
              if trove.collateralAmount < penalty then none
              else
                match accrueRewardPerShare s collateralId
                    (trove.collateralAmount - penalty) with
                | none => none
                | some s1 =>
                  match enqueueCollateralReward s1 s1.ownerId collateralId penalty with
                  | none => none
                  | some s2 =>
                    match burnFromStabilityPool s2 trove.debtAmount with
                    | none => none
                    | some s3 =>
                      match addTotalDebt s3 collateralId (-(i128ofU128 trove.debtAmount)) with
                      | none => none
                      | some s4 =>
                        liquidateLoop collateralId price config
                          { s4 with troves := alrem s4.troves (owner, collateralId) }
                          rest (processed + 1)

/-- `Contract::liquidate`: returns the new state and the count of troves
actually liquidated. -/
def liquidate (s : Contract) (collateralId : Nat) (owners : List Nat) :
    Option (Contract × Nat) :=
  if owners = [] then none
  else
    match alget s.priceFeeds collateralId with
    | none => none
    | some price =>
      match alget s.configs collateralId with
      | none => none
      | some config => liquidateLoop collateralId price config s owners 0

/-- `FungibleTokenCore::ft_transfer` on the stablecoin, modelled from the
spec ledger interface: positive amount, distinct accounts, debit and
credit. -/
def transferNusd (s : Contract) (sender receiver : Nat) (amount : Nat) :
    Option Contract :=
  if sender = receiver then none
  else if amount = 0 then none
  else
    match nusdWithdraw s sender amount with
    | none => none
    | some s1 => nusdDeposit s1 receiver amount

/-- One public mutating entry point of the contract with its arguments. -/
inductive Op : Type
  | registerCollateral (caller : Nat) (tokenId : Nat)
      (config : CollateralConfigInternal) : Op
  | submitPrice (caller : Nat) (collateralId : Nat)
      (price : Nat) (decimals now : Nat) : Op
  | depositCollateral (ownerId : Nat) (collateralId : Nat)
      (amount : Nat) (now : Nat) : Op
  | borrow (caller : Nat) (collateralId : Nat) (amount : Nat) (now : Nat) : Op
  | repay (caller : Nat) (collateralId : Nat) (amount : Nat) (now : Nat) : Op
  | withdrawCollateral (caller : Nat) (collateralId : Nat)
      (amount : Nat) (now : Nat) : Op
  | closeTrove (caller : Nat) (collateralId : Nat) : Op
  | depositToStabilityPool (caller : Nat) (amount : Nat) : Op
  | withdrawFromStabilityPool (caller : Nat) (amount : Option Nat) : Op
  | claimCollateralReward (caller : Nat) (collateralId : Nat)
      (amount : Option Nat) : Op
  | redeem (caller : Nat) (collateralId : Nat) (troveOwner : Nat)
      (amount : Nat) (now : Nat) : Op
  | liquidate (collateralId : Nat) (owners : List Nat) : Op
  | transferNusd (sender receiver : Nat) (amount : Nat) : Op

/-- State transition of one public call: `none` is a rejected call. -/
def exec (op : Op) (s : Contract) : Option Contract :=
  match op with
  | .registerCollateral caller tokenId config => registerCollateral s caller tokenId config
  | .submitPrice caller collateralId price decimals now =>
      submitPrice s caller collateralId price decimals now
  | .depositCollateral ownerId collateralId amount now =>
      internalDepositCollateral s ownerId collateralId amount now
  | .borrow caller collateralId amount now => borrow s caller collateralId amount now
  | .repay caller collateralId amount now => repay s caller collateralId amount now
  | .withdrawCollateral caller collateralId amount now =>
      withdrawCollateral s caller collateralId amount now
  | .closeTrove caller collateralId => closeTrove s caller collateralId
  | .depositToStabilityPool caller amount => depositToStabilityPool s caller amount
  | .withdrawFromStabilityPool caller amount => withdrawFromStabilityPool s caller amount
  | .claimCollateralReward caller collateralId amount =>
      claimCollateralReward s caller collateralId amount
  | .redeem caller collateralId troveOwner amount now =>
      redeem s caller collateralId troveOwner amount now
  | .liquidate collateralId owners =>
      match liquidate s collateralId owners with
      | none => none
      | some (s1, _) => some s1
  | .transferNusd sender receiver amount => transferNusd s sender receiver amount

/-- A state is reachable when it arises from a fresh contract by a
sequence of successful public calls. -/
inductive Reachable : Contract → Prop
  | base (contractId ownerId intentRouterId pythOracleId : Nat) :
      Reachable (Contract.new contractId ownerId intentRouterId pythOracleId)
  | step {s s1 : Contract} (op : Op) :
      Reachable s → exec op s = some s1 → Reachable s1

/-! Association-list lemmas. -/

theorem alget_mem {α β : Type} [DecidableEq α] {l : List (α × β)} {k : α} {v : β}
    (h : alget l k = some v) : (k, v) ∈ l := by
  induction l with
  | nil => simp [alget] at h
  | cons p rest ih =>
    obtain ⟨k', v'⟩ := p
    simp only [alget] at h
    by_cases hk : k' = k
    · simp [hk] at h
      simp [hk, h]
    · simp [hk] at h
      exact List.mem_cons_of_mem _ (ih h)

theorem alrem_sublist {α β : Type} [DecidableEq α] (l : List (α × β)) (k : α) :
    (alrem l k).Sublist l := by
  induction l with
  | nil => simp [alrem]
  | cons p rest ih =>
    obtain ⟨k', v'⟩ := p
    simp only [alrem]
    by_cases hk : k' = k
    · simp only [if_pos hk]
      exact ih.cons _
    · simp only [if_neg hk]
      exact ih.cons₂ _

theorem mem_alrem {α β : Type} [DecidableEq α] {l : List (α × β)} {k : α} {p : α × β}
    (h : p ∈ alrem l k) : p ∈ l :=
  (alrem_sublist l k).mem h

theorem fst_ne_of_mem_alrem {α β : Type} [DecidableEq α] {l : List (α × β)} {k : α}
    {p : α × β} (h : p ∈ alrem l k) : p.1 ≠ k := by
  induction l with
  | nil => simp [alrem] at h
  | cons q rest ih =>
    obtain ⟨k', v'⟩ := q
    simp only [alrem] at h
    by_cases hk : k' = k
    · exact ih (by simpa [hk] using h)
    · rcases List.mem_cons.mp (by simpa [hk] using h) with h1 | h1
      · subst h1
        exact hk
      · exact ih h1

theorem mem_alset {α β : Type} [DecidableEq α] {l : List (α × β)} {k : α} {v : β} {p : α × β}
    (h : p ∈ alset l k v) : p = (k, v) ∨ p ∈ l := by
  rcases List.mem_cons.mp h with h1 | h1
  · exact Or.inl h1
  · exact Or.inr (mem_alrem h1)

theorem alget_alrem_ne {α β : Type} [DecidableEq α] (l : List (α × β)) {k a : α}
    (h : a ≠ k) : alget (alrem l k) a = alget l a := by
  induction l with
  | nil => rfl
  | cons p rest ih =>
    obtain ⟨k', v'⟩ := p
    simp only [alrem]
    by_cases hk : k' = k
    · have hka : ¬(k = a) := fun hc => h hc.symm
      simp [hk, alget, hka, ih]
    · simp only [if_neg hk, alget]
      by_cases hka : k' = a
      · simp [hka]
      · simp [hka, ih]

theorem alget_alrem_self {α β : Type} [DecidableEq α] (l : List (α × β)) (k : α) :
    alget (alrem l k) k = none := by
  induction l with
  | nil => rfl
  | cons p rest ih =>
    obtain ⟨k', v'⟩ := p
    simp only [alrem]
    by_cases hk : k' = k
    · simp [hk, ih]
    · simp [hk, alget, ih]

theorem alget_alset_self {α β : Type} [DecidableEq α] (l : List (α × β)) (k : α) (v : β) :
    alget (alset l k v) k = some v := by
  simp [alset, alget]

theorem alget_alset_ne {α β : Type} [DecidableEq α] (l : List (α × β)) {k a : α} (v : β)
    (h : a ≠ k) : alget (alset l k v) a = alget l a := by
  have hk : ¬(k = a) := fun hc => h hc.symm
  simp [alset, alget, hk, alget_alrem_ne l h]

theorem alrem_eq_self_of_alget_none {α β : Type} [DecidableEq α] {l : List (α × β)} {k : α}
    (h : alget l k = none) : alrem l k = l := by
  induction l with
  | nil => rfl
  | cons p rest ih =>
    obtain ⟨k', v'⟩ := p
    simp only [alget] at h
    by_cases hk : k' = k
    · simp [hk] at h
    · simp [hk] at h
      simp [alrem, hk, ih h]

theorem nodup_keys_alrem {α β : Type} [DecidableEq α] {l : List (α × β)} (k : α)
    (h : (l.map Prod.fst).Nodup) : ((alrem l k).map Prod.fst).Nodup :=
  ((alrem_sublist l k).map Prod.fst).nodup h

theorem nodup_keys_alset {α β : Type} [DecidableEq α] {l : List (α × β)} (k : α) (v : β)
    (h : (l.map Prod.fst).Nodup) : ((alset l k v).map Prod.fst).Nodup := by
  simp only [alset, List.map_cons, List.nodup_cons]
  constructor
  · intro hmem
    rcases List.mem_map.mp hmem with ⟨p, hp, hfst⟩
    exact fst_ne_of_mem_alrem hp hfst
  · exact nodup_keys_alrem k h

/-! Per-asset trove debt sums. -/

/-- Sum of `debt_amount` over the stored troves of one collateral asset. -/
def sumDebt (a : Nat) (l : List ((Nat × Nat) × TroveInternal)) : Nat :=
  l.foldr (fun p acc => (if p.1.2 = a then p.2.debtAmount else 0) + acc) 0

/-- Contribution of one optional trove entry to `sumDebt`. -/
def contribOpt (a : Nat) (k : Nat × Nat) : Option TroveInternal → Nat
  | some t => if k.2 = a then t.debtAmount else 0
  | none => 0

theorem sumDebt_alrem (a : Nat) {l : List ((Nat × Nat) × TroveInternal)}
    (k : Nat × Nat) (hnd : (l.map Prod.fst).Nodup) :
    sumDebt a (alrem l k) + contribOpt a k (alget l k) = sumDebt a l := by
  induction l with
  | nil => simp [sumDebt, alrem, alget, contribOpt]
  | cons p rest ih =>
    obtain ⟨k', v'⟩ := p
    simp only [List.map_cons, List.nodup_cons] at hnd
    obtain ⟨hknotin, hnd'⟩ := hnd
    by_cases hk : k' = k
    · subst hk
      have hnone : alget rest k' = none := by
        cases hget : alget rest k' with
        | none => rfl
        | some v =>
          exact absurd (List.mem_map.mpr ⟨(k', v), alget_mem hget, rfl⟩) hknotin
      simp [alrem, alget, alrem_eq_self_of_alget_none hnone, contribOpt, sumDebt]
      omega
    · have := ih hnd'
      simp only [alrem, if_neg hk, alget, sumDebt, List.foldr_cons]
      simp only [sumDebt] at this
      omega

theorem sumDebt_alset (a : Nat) {l : List ((Nat × Nat) × TroveInternal)}
    (k : Nat × Nat) (t : TroveInternal) (hnd : (l.map Prod.fst).Nodup) :
    sumDebt a (alset l k t) + contribOpt a k (alget l k) =
      sumDebt a l + (if k.2 = a then t.debtAmount else 0) := by
  have h1 := sumDebt_alrem a k hnd
  simp only [alset, sumDebt, List.foldr_cons] at *
  omega

theorem tdSet_getD (l : List (Nat × Nat)) (c : Nat) (v : Nat) (a : Nat) :
    (alget (if v = 0 then alrem l c else alset l c v) a).getD 0 =
      if a = c then v else (alget l a).getD 0 := by
  by_cases hv : v = 0 <;> by_cases hac : a = c <;>
    simp [hv, hac, alget_alrem_self, alget_alrem_ne, alget_alset_self, alget_alset_ne]

/-! Frame lemmas: which state components the stability-pool and ledger
helpers leave untouched. -/

/-- Fields untouched by the reward-settlement and ledger helpers. -/
structure CoreFrame (s s1 : Contract) : Prop where
  configs : s1.configs = s.configs
  troves : s1.troves = s.troves
  totalDebt : s1.totalDebt = s.totalDebt
  priceFeeds : s1.priceFeeds = s.priceFeeds
  totalShares : s1.stabilityPoolTotalShares = s.stabilityPoolTotalShares
  totalNusd : s1.stabilityPoolTotalNusd = s.stabilityPoolTotalNusd
  epoch : s1.stabilityPoolEpoch = s.stabilityPoolEpoch
  owner : s1.ownerId = s.ownerId
  contract : s1.contractId = s.contractId

/-- Fields untouched by every operation that does not act on troves,
debts, configs or prices. -/
structure DebtFrame (s s1 : Contract) : Prop where
  configs : s1.configs = s.configs
  troves : s1.troves = s.troves
  totalDebt : s1.totalDebt = s.totalDebt
  priceFeeds : s1.priceFeeds = s.priceFeeds

theorem CoreFrame.rfl (s : Contract) : CoreFrame s s :=
  ⟨Eq.refl _, Eq.refl _, Eq.refl _, Eq.refl _, Eq.refl _, Eq.refl _, Eq.refl _,
   Eq.refl _, Eq.refl _⟩

theorem CoreFrame.trans {s s1 s2 : Contract} (h1 : CoreFrame s s1) (h2 : CoreFrame s1 s2) :
    CoreFrame s s2 :=
  ⟨h2.configs.trans h1.configs, h2.troves.trans h1.troves, h2.totalDebt.trans h1.totalDebt,
   h2.priceFeeds.trans h1.priceFeeds, h2.totalShares.trans h1.totalShares,
   h2.totalNusd.trans h1.totalNusd, h2.epoch.trans h1.epoch, h2.owner.trans h1.owner,
   h2.contract.trans h1.contract⟩

theorem CoreFrame.toDebtFrame {s s1 : Contract} (h : CoreFrame s s1) : DebtFrame s s1 :=
  ⟨h.configs, h.troves, h.totalDebt, h.priceFeeds⟩

theorem coreFrame_nusdDeposit {s s1 : Contract} {a : Nat} {amount : Nat}
    (h : nusdDeposit s a amount = some s1) : CoreFrame s s1 := by
  simp only [nusdDeposit] at h
  split at h
  · exact Option.noConfusion h
  · cases Option.some.inj h
    exact ⟨rfl, rfl, rfl, rfl, rfl, rfl, rfl, rfl, rfl⟩

theorem coreFrame_nusdWithdraw {s s1 : Contract} {a : Nat} {amount : Nat}
    (h : nusdWithdraw s a amount = some s1) : CoreFrame s s1 := by
  simp only [nusdWithdraw] at h
  split at h
  · cases Option.some.inj h
    exact ⟨rfl, rfl, rfl, rfl, rfl, rfl, rfl, rfl, rfl⟩
  · exact Option.noConfusion h

theorem coreFrame_enqueue {s s1 : Contract} {a : Nat} {c : Nat} {amount : Nat}
    (h : enqueueCollateralReward s a c amount = some s1) : CoreFrame s s1 := by
  simp only [enqueueCollateralReward] at h
  split at h
  · cases Option.some.inj h
    exact ⟨rfl, rfl, rfl, rfl, rfl, rfl, rfl, rfl, rfl⟩
  · split at h
    · exact Option.noConfusion h
    · cases Option.some.inj h
      exact ⟨rfl, rfl, rfl, rfl, rfl, rfl, rfl, rfl, rfl⟩

theorem coreFrame_settlePendingOverKeys {a : Nat} {shares : Nat}
    {rd : List (Nat × Nat)} {keys : List Nat} :
    ∀ {s s1 : Contract}, settlePendingOverKeys s a shares rd keys = some s1 →
      CoreFrame s s1 := by
  induction keys with
  | nil =>
    intro s s1 h
    cases Option.some.inj h
    exact CoreFrame.rfl s
  | cons c rest ih =>
    intro s s1 h
    simp only [settlePendingOverKeys] at h
    split at h
    · split at h
      · exact Option.noConfusion h
      · split at h
        · exact Option.noConfusion h
        · rename_i s2 _
          exact (coreFrame_enqueue (by assumption)).trans (ih h)
    · exact ih h

theorem coreFrame_ensureDepositEpoch {s s1 : Contract} {a : Nat}
    {dep dep1 : StabilityDeposit} (h : ensureDepositEpoch s a dep = some (s1, dep1)) :
    CoreFrame s s1 := by
  simp only [ensureDepositEpoch] at h
  split at h
  · cases Option.some.inj h
    exact CoreFrame.rfl s
  · split at h
    · exact Option.noConfusion h
    · rename_i hmatch
      cases Option.some.inj h
      split at hmatch
      · exact coreFrame_settlePendingOverKeys hmatch
      · cases Option.some.inj hmatch
        exact CoreFrame.rfl s

theorem coreFrame_settleOverKeys {a : Nat} {shares : Nat} {keys : List Nat} :
    ∀ {s s1 : Contract} {rd rd1 : List (Nat × Nat)},
      settleOverKeys s a shares rd keys = some (s1, rd1) → CoreFrame s s1 := by
  induction keys with
  | nil =>
    intro s s1 rd rd1 h
    cases Option.some.inj h
    exact CoreFrame.rfl s
  | cons c rest ih =>
    intro s s1 rd rd1 h
    simp only [settleOverKeys] at h
    split at h
    · split at h
      · exact Option.noConfusion h
      · split at h
        · exact Option.noConfusion h
        · exact (coreFrame_enqueue (by assumption)).trans (ih h)
    · exact ih h

theorem coreFrame_settleStabilityRewards {s s1 : Contract} {a : Nat}
    (h : settleStabilityRewards s a = some s1) : CoreFrame s s1 := by
  simp only [settleStabilityRewards] at h
  split at h
  · exact Option.noConfusion h
  · rename_i s2 dep hens
    split at h
    · cases Option.some.inj h
      exact (coreFrame_ensureDepositEpoch hens).trans
        ⟨rfl, rfl, rfl, rfl, rfl, rfl, rfl, rfl, rfl⟩
    · split at h
      · exact Option.noConfusion h
      · rename_i s3 rd hsettle
        split at h
        · cases Option.some.inj h
          exact (coreFrame_ensureDepositEpoch hens).trans (coreFrame_settleOverKeys hsettle)
        · cases Option.some.inj h
          exact ((coreFrame_ensureDepositEpoch hens).trans
            (coreFrame_settleOverKeys hsettle)).trans
            ⟨rfl, rfl, rfl, rfl, rfl, rfl, rfl, rfl, rfl⟩

theorem coreFrame_claimCollateral {s s1 : Contract} {a : Nat} {c : Nat}
    {amountOpt : Option Nat} (h : claimCollateral s a c amountOpt = some s1) :
    CoreFrame s s1 := by
  simp only [claimCollateral] at h
  split at h
  · exact Option.noConfusion h
  · split at h
    · exact Option.noConfusion h
    · split at h
      · exact Option.noConfusion h
      · split at h
        · exact Option.noConfusion h
        · cases Option.some.inj h
          exact ⟨rfl, rfl, rfl, rfl, rfl, rfl, rfl, rfl, rfl⟩

theorem coreFrame_transferNusd {s s1 : Contract} {sender receiver : Nat}
    {amount : Nat} (h : transferNusd s sender receiver amount = some s1) :
    CoreFrame s s1 := by
  simp only [transferNusd] at h
  split at h
  · exact Option.noConfusion h
  · split at h
    · exact Option.noConfusion h
    · split at h
      · exact Option.noConfusion h
      · exact (coreFrame_nusdWithdraw (by assumption)).trans (coreFrame_nusdDeposit h)

theorem debtFrame_depositToStabilityPool {s s1 : Contract} {caller : Nat}
    {amount : Nat} (h : depositToStabilityPool s caller amount = some s1) :
    DebtFrame s s1 := by
  simp only [depositToStabilityPool] at h
  split at h
  · exact Option.noConfusion h
  · split at h
    · exact Option.noConfusion h
    · rename_i s2 hsettle
      split at h
      · exact Option.noConfusion h
      · rename_i s3 dep hens
        split at h
        · exact Option.noConfusion h
        · split at h
          · exact Option.noConfusion h
          · split at h
            · exact Option.noConfusion h
            · split at h
              · exact Option.noConfusion h
              · split at h
                · exact Option.noConfusion h
                · split at h
                  · exact Option.noConfusion h
                  · rename_i hwd
                    have f1 := coreFrame_settleStabilityRewards hsettle
                    have f2 := coreFrame_ensureDepositEpoch hens
                    have f3 := coreFrame_nusdWithdraw hwd
                    have f4 := coreFrame_nusdDeposit h
                    have g3 := f3.toDebtFrame
                    have g4 := f4.toDebtFrame
                    refine ⟨?_, ?_, ?_, ?_⟩
                    · rw [g4.configs, g3.configs]
                      exact (f2.configs.trans f1.configs)
                    · rw [g4.troves, g3.troves]
                      exact (f2.troves.trans f1.troves)
                    · rw [g4.totalDebt, g3.totalDebt]
                      exact (f2.totalDebt.trans f1.totalDebt)
                    · rw [g4.priceFeeds, g3.priceFeeds]
                      exact (f2.priceFeeds.trans f1.priceFeeds)

theorem debtFrame_withdrawFromStabilityPool {s s1 : Contract} {caller : Nat}
    {amountOpt : Option Nat}
    (h : withdrawFromStabilityPool s caller amountOpt = some s1) : DebtFrame s s1 := by
  simp only [withdrawFromStabilityPool] at h
  split at h
  · exact Option.noConfusion h
  · rename_i s2 hsettle
    split at h
    · exact Option.noConfusion h
    · rename_i s3 dep hens
      split at h
      · exact Option.noConfusion h
      · split at h
        · exact Option.noConfusion h
        · split at h
          · exact Option.noConfusion h
          · split at h
            · exact Option.noConfusion h
            · split at h
              · exact Option.noConfusion h
              · split at h
                · exact Option.noConfusion h
                · split at h
                  · exact Option.noConfusion h
                  · split at h
                    · exact Option.noConfusion h
                    · split at h
                      · exact Option.noConfusion h
                      · split at h
                        · exact Option.noConfusion h
                        · split at h
                          · exact Option.noConfusion h
                          · rename_i hwd
                            have f1 := coreFrame_settleStabilityRewards hsettle
                            have f2 := coreFrame_ensureDepositEpoch hens
                            have f3 := coreFrame_nusdWithdraw hwd
                            have f4 := coreFrame_nusdDeposit h
                            refine ⟨?_, ?_, ?_, ?_⟩
                            · rw [f4.configs, f3.configs]
                              exact (f2.configs.trans f1.configs)
                            · rw [f4.troves, f3.troves]
                              exact (f2.troves.trans f1.troves)
                            · rw [f4.totalDebt, f3.totalDebt]
                              exact (f2.totalDebt.trans f1.totalDebt)
                            · rw [f4.priceFeeds, f3.priceFeeds]
                              exact (f2.priceFeeds.trans f1.priceFeeds)

theorem debtFrame_claimCollateralReward {s s1 : Contract} {caller : Nat}
    {c : Nat} {amountOpt : Option Nat}
    (h : claimCollateralReward s caller c amountOpt = some s1) : DebtFrame s s1 := by
  simp only [claimCollateralReward] at h
  split at h
  · exact Option.noConfusion h
  · rename_i s2 hsettle
    exact ((coreFrame_settleStabilityRewards hsettle).trans
      (coreFrame_claimCollateral h)).toDebtFrame

/-! The global bookkeeping invariant of reachable states. -/

/-- The stored per-asset debt total, defaulting to zero when absent. -/
def tdGet (s : Contract) (a : Nat) : Nat :=
  (alget s.totalDebt a).getD 0

/-- Bookkeeping invariant: per-asset totals match the trove sums, each
trove debt fits in `i128`, registered MCRs are at least 1100 bps, stored
prices are positive, and trove keys are unique. -/
structure Inv (s : Contract) : Prop where
  debtEq : ∀ a, tdGet s a = sumDebt a s.troves
  debtLt : ∀ p ∈ s.troves, p.2.debtAmount < I128LIM
  mcrLb : ∀ p ∈ s.configs, 1100 ≤ p.2.minCollateralRatioBps
  pricePos : ∀ p ∈ s.priceFeeds, 1 ≤ p.2.price
  nodup : (s.troves.map Prod.fst).Nodup

theorem Inv.ofDebtFrame {s s1 : Contract} (hf : DebtFrame s s1) (hInv : Inv s) : Inv s1 := by
  refine ⟨?_, ?_, ?_, ?_, ?_⟩
  · intro a
    rw [tdGet, hf.totalDebt, hf.troves]
    exact hInv.debtEq a
  · rw [hf.troves]
    exact hInv.debtLt
  · rw [hf.configs]
    exact hInv.mcrLb
  · rw [hf.priceFeeds]
    exact hInv.pricePos
  · rw [hf.troves]
    exact hInv.nodup

theorem inv_new (contractId ownerId intentRouterId pythOracleId : Nat) :
    Inv (Contract.new contractId ownerId intentRouterId pythOracleId) := by
  refine ⟨?_, ?_, ?_, ?_, ?_⟩ <;> simp [Contract.new, tdGet, alget, sumDebt]

theorem u128lim_eq : U128LIM = 340282366920938463463374607431768211456 := by
  norm_num [U128LIM]

theorem i128lim_eq : I128LIM = 170141183460469231731687303715884105728 := by
  norm_num [I128LIM]

theorem i128ofU128_small {x : Nat} (h : x < I128LIM) : i128ofU128 x = (x : Int) :=
  if_pos h

/-- A checked `ratio >= MCR` bound forces the new debt under `2 ^ 127`. -/
theorem debt_lt_of_ratio {v newDebt r mcr : Nat} (h0 : 0 < newDebt)
    (hv : v * BPS_DENOMINATOR < U128LIM) (hr : r = v * BPS_DENOMINATOR / newDebt)
    (hmcr : mcr ≤ r) (h1100 : 1100 ≤ mcr) : newDebt < I128LIM := by
  have h1 : 1100 ≤ v * BPS_DENOMINATOR / newDebt := le_trans h1100 (hr ▸ hmcr)
  have h2 : 1100 * newDebt ≤ v * BPS_DENOMINATOR := (Nat.le_div_iff_mul_le h0).mp h1
  have h3 : 1100 * newDebt < U128LIM := lt_of_le_of_lt h2 hv
  rw [u128lim_eq] at h3
  rw [i128lim_eq]
  omega

/-- Characterization of `add_total_debt` for a nonnegative delta. -/
theorem addTotalDebt_nonneg {s s1 : Contract} {c : Nat} {d : Nat}
    (h : addTotalDebt s c (d : Int) = some s1) :
    (∀ a, tdGet s1 a = if a = c then tdGet s c + d else tdGet s a) ∧
    (∃ cfg, alget s.configs c = some cfg ∧ tdGet s c + d ≤ cfg.debtCeiling) ∧
    s1.troves = s.troves ∧ s1.configs = s.configs ∧ s1.priceFeeds = s.priceFeeds ∧
    s1.stabilityPoolTotalShares = s.stabilityPoolTotalShares ∧
    s1.stabilityPoolTotalNusd = s.stabilityPoolTotalNusd ∧
    s1.stabilityPoolEpoch = s.stabilityPoolEpoch ∧ s1.ownerId = s.ownerId ∧
    s1.contractId = s.contractId ∧ s1.nusd = s.nusd ∧
    s1.collateralRewards = s.collateralRewards ∧ s1.rewardPerShare = s.rewardPerShare ∧
    s1.stabilityPoolDeposits = s.stabilityPoolDeposits := by
  simp only [addTotalDebt] at h
  rw [if_pos (Int.natCast_nonneg d)] at h
  simp only [Int.toNat_natCast] at h
  split at h
  · exact Option.noConfusion h
  · rename_i inc hadd
    split at h
    · exact Option.noConfusion h
    · rename_i cfg hcfg
      split at h
      · rename_i hceil
        cases Option.some.inj h
        simp only [checkedAdd] at hadd
        split at hadd
        · cases Option.some.inj hadd
          refine ⟨?_, ⟨cfg, hcfg, hceil⟩, rfl, rfl, rfl, rfl, rfl, rfl, rfl, rfl, rfl,
            rfl, rfl, rfl⟩
          intro a
          exact tdSet_getD s.totalDebt c _ a
        · exact Option.noConfusion hadd
      · exact Option.noConfusion h

/-- Characterization of `add_total_debt` for a negative delta. -/
theorem addTotalDebt_neg {s s1 : Contract} {c : Nat} {d : Nat} (hd : 0 < d)
    (h : addTotalDebt s c (-(d : Int)) = some s1) :
    d ≤ tdGet s c ∧
    (∀ a, tdGet s1 a = if a = c then tdGet s c - d else tdGet s a) ∧
    s1.troves = s.troves ∧ s1.configs = s.configs ∧ s1.priceFeeds = s.priceFeeds ∧
    s1.stabilityPoolTotalShares = s.stabilityPoolTotalShares ∧
    s1.stabilityPoolTotalNusd = s.stabilityPoolTotalNusd ∧
    s1.stabilityPoolEpoch = s.stabilityPoolEpoch ∧ s1.ownerId = s.ownerId ∧
    s1.contractId = s.contractId ∧ s1.nusd = s.nusd ∧
    s1.collateralRewards = s.collateralRewards ∧ s1.rewardPerShare = s.rewardPerShare ∧
    s1.stabilityPoolDeposits = s.stabilityPoolDeposits := by
  simp only [addTotalDebt] at h
  rw [if_neg (by omega : ¬(0 : Int) ≤ -(d : Int))] at h
  simp only [Int.neg_neg, Int.toNat_natCast] at h
  split at h
  · rename_i hle
    cases Option.some.inj h
    refine ⟨hle, ?_, rfl, rfl, rfl, rfl, rfl, rfl, rfl, rfl, rfl, rfl, rfl, rfl⟩
    intro a
    exact tdSet_getD s.totalDebt c _ a
  · exact Option.noConfusion h

theorem inv_registerCollateral {s s1 : Contract} {caller : Nat} {tokenId : Nat}
    {config : CollateralConfigInternal} (hInv : Inv s)
    (h : registerCollateral s caller tokenId config = some s1) : Inv s1 := by
  simp only [registerCollateral] at h
  split at h
  · split at h
    · rename_i hmcr
      split at h
      · cases Option.some.inj h
        refine ⟨hInv.debtEq, hInv.debtLt, ?_, hInv.pricePos, hInv.nodup⟩
        intro p hp
        rcases mem_alset hp with hp1 | hp1
        · rw [hp1]
          exact hmcr
        · exact hInv.mcrLb p hp1
      · exact Option.noConfusion h
    · exact Option.noConfusion h
  · exact Option.noConfusion h

theorem inv_submitPrice {s s1 : Contract} {caller : Nat} {collateralId : Nat}
    {price : Nat} {decimals now : Nat} (hInv : Inv s)
    (h : submitPrice s caller collateralId price decimals now = some s1) : Inv s1 := by
  simp only [submitPrice] at h
  split at h
  · split at h
    · split at h
      · rename_i hpos
        cases Option.some.inj h
        refine ⟨hInv.debtEq, hInv.debtLt, hInv.mcrLb, ?_, hInv.nodup⟩
        intro p hp
        rcases mem_alset hp with hp1 | hp1
        · rw [hp1]
          exact hpos
        · exact hInv.pricePos p hp1
      · exact Option.noConfusion h
    · exact Option.noConfusion h
  · exact Option.noConfusion h

/-- Saving a trove whose debt field is unchanged preserves the invariant
provided that debt is `i128`-small. -/
theorem inv_saveTrove_samedebt {s : Contract} {k : Nat × Nat}
    (t1 : TroveInternal) (hInv : Inv s)
    (hdebt : contribOpt k.2 k (alget s.troves k) = t1.debtAmount)
    (hlt : t1.debtAmount < I128LIM) :
    Inv { s with troves := alset s.troves k t1 } := by
  refine ⟨?_, ?_, hInv.mcrLb, hInv.pricePos, nodup_keys_alset k t1 hInv.nodup⟩
  · intro a
    have hsum := sumDebt_alset a k t1 hInv.nodup
    have heq := hInv.debtEq a
    simp only [tdGet] at heq ⊢
    by_cases hak : k.2 = a
    · subst hak
      rw [if_pos rfl] at hsum
      rw [hdebt] at hsum
      omega
    · cases halget : alget s.troves k with
      | none =>
        rw [halget] at hsum
        simp only [contribOpt, if_neg hak] at hsum
        omega
      | some t0 =>
        rw [halget] at hsum
        simp only [contribOpt, if_neg hak] at hsum
        omega
  · intro p hp
    rcases mem_alset hp with hp1 | hp1
    · rw [hp1]
      exact hlt
    · exact hInv.debtLt p hp1

theorem inv_internalDepositCollateral {s s1 : Contract} {ownerId : Nat}
    {collateralId : Nat} {amount : Nat} {now : Nat} (hInv : Inv s)
    (h : internalDepositCollateral s ownerId collateralId amount now = some s1) : Inv s1 := by
  simp only [internalDepositCollateral] at h
  split at h
  · exact Option.noConfusion h
  · split at h
    · exact Option.noConfusion h
    · cases halget : alget s.troves (ownerId, collateralId) with
      | none =>
        rw [halget] at h
        simp only [Option.getD_none] at h
        split at h
        · exact Option.noConfusion h
        · cases Option.some.inj h
          simp only [saveTrove]
          refine inv_saveTrove_samedebt _ hInv ?_ ?_
          · rw [halget]
            rfl
          · simp [i128lim_eq]
      | some t0 =>
        rw [halget] at h
        simp only [Option.getD_some] at h
        split at h
        · exact Option.noConfusion h
        · cases Option.some.inj h
          simp only [saveTrove]
          refine inv_saveTrove_samedebt _ hInv ?_ ?_
          · rw [halget]
            simp [contribOpt]
          · exact hInv.debtLt _ (alget_mem halget)

theorem inv_withdrawCollateral {s s1 : Contract} {caller : Nat}
    {collateralId : Nat} {amount : Nat} {now : Nat} (hInv : Inv s)
    (h : withdrawCollateral s caller collateralId amount now = some s1) : Inv s1 := by
  simp only [withdrawCollateral] at h
  split at h
  · exact Option.noConfusion h
  · rename_i trove htrove
    split at h
    · split at h
      · split at h
        · exact Option.noConfusion h
        · split at h
          · exact Option.noConfusion h
          · split at h
            · exact Option.noConfusion h
            · split at h
              · split at h
                · exact Option.noConfusion h
                · cases Option.some.inj h
                  simp only [saveTrove]
                  refine inv_saveTrove_samedebt _ hInv ?_ ?_
                  · rw [htrove]
                    simp [contribOpt]
                  · exact hInv.debtLt _ (alget_mem htrove)
              · exact Option.noConfusion h
      · split at h
        · exact Option.noConfusion h
        · cases Option.some.inj h
          simp only [saveTrove]
          refine inv_saveTrove_samedebt _ hInv ?_ ?_
          · rw [htrove]
            simp [contribOpt]
          · exact hInv.debtLt _ (alget_mem htrove)
    · exact Option.noConfusion h

theorem inv_closeTrove {s s1 : Contract} {caller : Nat} {collateralId : Nat}
    (hInv : Inv s) (h : closeTrove s caller collateralId = some s1) : Inv s1 := by
  simp only [closeTrove] at h
  split at h
  · exact Option.noConfusion h
  · rename_i trove htrove
    split at h
    · rename_i hdebt0
      split at h
      · exact Option.noConfusion h
      · split at h
        · exact Option.noConfusion h
        · cases Option.some.inj h
          refine ⟨?_, ?_, hInv.mcrLb, hInv.pricePos,
            nodup_keys_alrem (caller, collateralId) hInv.nodup⟩
          · intro a
            have hsum := sumDebt_alrem a (caller, collateralId) hInv.nodup
            have heq := hInv.debtEq a
            rw [htrove] at hsum
            simp only [contribOpt, hdebt0] at hsum
            simp only [tdGet] at heq ⊢
            split at hsum <;> omega
          · intro p hp
            exact hInv.debtLt p (mem_alrem hp)
    · exact Option.noConfusion h

/-- Replacing one trove by a version whose debt dropped by `amount` while
the stored total for its asset dropped by the same `amount` preserves the
invariant. -/
theorem inv_set_and_dec {s s2 : Contract} {own : Nat} {c : Nat}
    {amount : Nat} {trove t1 : TroveInternal} (hInv : Inv s)
    (htrove : alget s.troves (own, c) = some trove)
    (ht1 : t1.debtAmount = trove.debtAmount - amount)
    (hle : amount ≤ trove.debtAmount)
    (htr : s2.troves = alset s.troves (own, c) t1)
    (hcfg : s2.configs = s.configs) (hpf : s2.priceFeeds = s.priceFeeds)
    (htd : ∀ a, tdGet s2 a = if a = c then tdGet s c - amount else tdGet s a) :
    Inv s2 := by
  have hDlt : trove.debtAmount < I128LIM := hInv.debtLt _ (alget_mem htrove)
  refine ⟨?_, ?_, ?_, ?_, ?_⟩
  · intro a
    have hsum := sumDebt_alset a (own, c) t1 hInv.nodup
    rw [htrove] at hsum
    have hsum2 : sumDebt a (alset s.troves (own, c) t1) +
        (if c = a then trove.debtAmount else 0) =
        sumDebt a s.troves + (if c = a then t1.debtAmount else 0) := hsum
    rw [htd a, htr]
    have heq := hInv.debtEq a
    by_cases hac : a = c
    · rw [if_pos hac]
      rw [hac] at hsum2 heq ⊢
      simp only [eq_self_iff_true, if_true] at hsum2
      rw [ht1] at hsum2
      omega
    · have hca : ¬(c = a) := fun hc => hac hc.symm
      rw [if_neg hac]
      rw [if_neg hca, if_neg hca] at hsum2
      omega
  · rw [htr]
    intro p hp
    rcases mem_alset hp with hp1 | hp1
    · rw [hp1]
      show t1.debtAmount < I128LIM
      rw [ht1]
      exact lt_of_le_of_lt (Nat.sub_le _ _) hDlt
    · exact hInv.debtLt p hp1
  · rw [hcfg]
    exact hInv.mcrLb
  · rw [hpf]
    exact hInv.pricePos
  · rw [htr]
    exact nodup_keys_alset _ _ hInv.nodup

/-- Removing one trove while the stored total for its asset dropped by
exactly that trove debt preserves the invariant. -/
theorem inv_rem_and_dec {s s2 : Contract} {own : Nat} {c : Nat}
    {trove : TroveInternal} (hInv : Inv s)
    (htrove : alget s.troves (own, c) = some trove)
    (htr : s2.troves = alrem s.troves (own, c))
    (hcfg : s2.configs = s.configs) (hpf : s2.priceFeeds = s.priceFeeds)
    (htd : ∀ a, tdGet s2 a =
      if a = c then tdGet s c - trove.debtAmount else tdGet s a) :
    Inv s2 := by
  refine ⟨?_, ?_, ?_, ?_, ?_⟩
  · intro a
    have hsum := sumDebt_alrem a (own, c) hInv.nodup
    rw [htrove] at hsum
    have hsum2 : sumDebt a (alrem s.troves (own, c)) +
        (if c = a then trove.debtAmount else 0) = sumDebt a s.troves := hsum
    rw [htd a, htr]
    have heq := hInv.debtEq a
    by_cases hac : a = c
    · rw [if_pos hac]
      rw [hac] at hsum2 heq ⊢
      simp only [eq_self_iff_true, if_true] at hsum2
      omega
    · have hca : ¬(c = a) := fun hc => hac hc.symm
      rw [if_neg hac]
      rw [if_neg hca] at hsum2
      omega
  · rw [htr]
    intro p hp
    exact hInv.debtLt p (mem_alrem hp)
  · rw [hcfg]
    exact hInv.mcrLb
  · rw [hpf]
    exact hInv.pricePos
  · rw [htr]
    exact nodup_keys_alrem _ hInv.nodup

theorem inv_internalRepay {s s1 : Contract} {ownerId : Nat} {collateralId : Nat}
    {amount : Nat} {now : Nat} (hamt : 0 < amount) (hInv : Inv s)
    (h : internalRepay s ownerId collateralId amount now = some s1) : Inv s1 := by
  simp only [internalRepay] at h
  split at h
  · exact Option.noConfusion h
  · rename_i trove htrove
    split at h
    · rename_i hle
      have hDlt : trove.debtAmount < I128LIM := hInv.debtLt _ (alget_mem htrove)
      rw [i128ofU128_small (lt_of_le_of_lt hle hDlt)] at h
      obtain ⟨hle2, htd, htr, hcfg, hpf, -, -, -, -, -, -, -, -, -⟩ :=
        addTotalDebt_neg hamt h
      have hrfl : ∀ b, tdGet (saveTrove s ownerId collateralId { trove with debtAmount := trove.debtAmount - amount, lastUpdateTimestamp := now }) b = tdGet s b := fun b => rfl
      simp only [hrfl] at htd
      simp only [saveTrove] at htr hcfg hpf
      exact inv_set_and_dec hInv htrove rfl hle htr hcfg hpf htd
    · exact Option.noConfusion h

theorem inv_repay {s s1 : Contract} {caller : Nat} {collateralId : Nat}
    {amount : Nat} {now : Nat} (hInv : Inv s)
    (h : repay s caller collateralId amount now = some s1) : Inv s1 := by
  simp only [repay] at h
  split at h
  · exact Option.noConfusion h
  · rename_i hamt
    split at h
    · exact Option.noConfusion h
    · rename_i s2 hwd
      exact inv_internalRepay (Nat.pos_of_ne_zero hamt)
        (Inv.ofDebtFrame (coreFrame_nusdWithdraw hwd).toDebtFrame hInv) h

/-- Replacing one trove by a version whose debt grew by `amount` while the
stored total for its asset grew by the same `amount` preserves the
invariant, provided the new debt is `i128`-small. -/
theorem inv_set_and_inc {s s2 : Contract} {own : Nat} {c : Nat}
    {amount : Nat} {trove t1 : TroveInternal} (hInv : Inv s)
    (htrove : alget s.troves (own, c) = some trove)
    (ht1 : t1.debtAmount = trove.debtAmount + amount)
    (hlt : t1.debtAmount < I128LIM)
    (htr : s2.troves = alset s.troves (own, c) t1)
    (hcfg : s2.configs = s.configs) (hpf : s2.priceFeeds = s.priceFeeds)
    (htd : ∀ a, tdGet s2 a = if a = c then tdGet s c + amount else tdGet s a) :
    Inv s2 := by
  refine ⟨?_, ?_, ?_, ?_, ?_⟩
  · intro a
    have hsum := sumDebt_alset a (own, c) t1 hInv.nodup
    rw [htrove] at hsum
    have hsum2 : sumDebt a (alset s.troves (own, c) t1) +
        (if c = a then trove.debtAmount else 0) =
        sumDebt a s.troves + (if c = a then t1.debtAmount else 0) := hsum
    rw [htd a, htr]
    have heq := hInv.debtEq a
    by_cases hac : a = c
    · rw [if_pos hac]
      rw [hac] at hsum2 heq ⊢
      simp only [eq_self_iff_true, if_true] at hsum2
      rw [ht1] at hsum2
      omega
    · have hca : ¬(c = a) := fun hc => hac hc.symm
      rw [if_neg hac]
      rw [if_neg hca, if_neg hca] at hsum2
      omega
  · rw [htr]
    intro p hp
    rcases mem_alset hp with hp1 | hp1
    · rw [hp1]
      exact hlt
    · exact hInv.debtLt p hp1
  · rw [hcfg]
    exact hInv.mcrLb
  · rw [hpf]
    exact hInv.pricePos
  · rw [htr]
    exact nodup_keys_alset _ _ hInv.nodup

theorem checkedMul_some {a b m : Nat} (h : checkedMul a b = some m) :
    a * b < U128LIM ∧ m = a * b := by
  simp only [checkedMul] at h
  split at h
  · exact ⟨by assumption, (Option.some.inj h).symm⟩
  · exact Option.noConfusion h

theorem checkedAdd_some {a b m : Nat} (h : checkedAdd a b = some m) :
    a + b < U128LIM ∧ m = a + b := by
  simp only [checkedAdd] at h
  split at h
  · exact ⟨by assumption, (Option.some.inj h).symm⟩
  · exact Option.noConfusion h

/-- Unfolding of a successful ratio computation on positive debt. -/
theorem collateralRatioBps_pos_debt {coll debt : Nat} {price : PriceFeedInternal} {r : Nat}
    (hd : debt ≠ 0) (h : collateralRatioBps coll debt price = some r) :
    coll * price.price < U128LIM ∧
    coll * price.price / decimalsFactor price.decimals * BPS_DENOMINATOR < U128LIM ∧
    r = coll * price.price / decimalsFactor price.decimals * BPS_DENOMINATOR / debt := by
  simp only [collateralRatioBps, if_neg hd] at h
  split at h
  · exact Option.noConfusion h
  · rename_i v0 hv0
    split at h
    · exact Option.noConfusion h
    · rename_i rv hrv
      obtain ⟨hb1, he1⟩ := checkedMul_some hv0
      obtain ⟨hb2, he2⟩ := checkedMul_some hrv
      subst he1
      subst he2
      exact ⟨hb1, hb2, (Option.some.inj h).symm⟩

theorem inv_borrow {s s1 : Contract} {caller : Nat} {collateralId : Nat}
    {amount : Nat} {now : Nat} (hInv : Inv s)
    (h : borrow s caller collateralId amount now = some s1) : Inv s1 := by
  simp only [borrow] at h
  split at h
  · exact Option.noConfusion h
  · rename_i hamt
    split at h
    · exact Option.noConfusion h
    · rename_i trove htrove
      split at h
      · exact Option.noConfusion h
      · rename_i config hcfg
        split at h
        · exact Option.noConfusion h
        · rename_i price hprice
          split at h
          · exact Option.noConfusion h
          · rename_i newDebt hadd
            split at h
            · rename_i hceil
              split at h
              · exact Option.noConfusion h
              · rename_i r hratio
                split at h
                · rename_i hmcr
                  split at h
                  · exact Option.noConfusion h
                  · rename_i s2 hatd
                    obtain ⟨-, hndEq⟩ := checkedAdd_some hadd
                    have hnd0 : newDebt ≠ 0 := by omega
                    obtain ⟨hv1, hv2, hrEq⟩ := collateralRatioBps_pos_debt hnd0 hratio
                    have hmcr1100 : 1100 ≤ config.minCollateralRatioBps :=
                      hInv.mcrLb _ (alget_mem hcfg)
                    have hndLt : newDebt < I128LIM :=
                      debt_lt_of_ratio (Nat.pos_of_ne_zero hnd0) hv2 hrEq hmcr hmcr1100
                    have hamtLe : amount ≤ newDebt := by omega
                    rw [i128ofU128_small (lt_of_le_of_lt hamtLe hndLt)] at hatd
                    obtain ⟨htd, -, htr, hcfg2, hpf, -, -, -, -, -, -, -, -, -⟩ :=
                      addTotalDebt_nonneg hatd
                    have hrfl : ∀ b, tdGet (saveTrove s caller collateralId { trove with debtAmount := newDebt, lastUpdateTimestamp := now }) b = tdGet s b := fun b => rfl
                    simp only [hrfl] at htd
                    simp only [saveTrove] at htr hcfg2 hpf
                    have hInv2 : Inv s2 := by
                      exact inv_set_and_inc hInv htrove hndEq hndLt htr hcfg2 hpf htd
                    exact Inv.ofDebtFrame (coreFrame_nusdDeposit h).toDebtFrame hInv2
                · exact Option.noConfusion h
            · exact Option.noConfusion h

theorem inv_redeem {s s1 : Contract} {caller : Nat} {collateralId : Nat}
    {troveOwner : Nat} {amount : Nat} {now : Nat} (hInv : Inv s)
    (h : redeem s caller collateralId troveOwner amount now = some s1) : Inv s1 := by
  simp only [redeem] at h
  split at h
  · exact Option.noConfusion h
  · rename_i hamt
    split at h
    · exact Option.noConfusion h
    · rename_i trove htrove
      split at h
      · rename_i hle
        split at h
        · exact Option.noConfusion h
        · rename_i price hprice
          split at h
          · exact Option.noConfusion h
          · rename_i m hm
            split at h
            · exact Option.noConfusion h
            · rename_i hout0
              split at h
              · exact Option.noConfusion h
              · rename_i hcollLe
                have hDlt : trove.debtAmount < I128LIM := hInv.debtLt _ (alget_mem htrove)
                have hamtPos : 0 < amount := Nat.pos_of_ne_zero hamt
                rw [i128ofU128_small (lt_of_le_of_lt hle hDlt)] at h
                split at h
                · exact Option.noConfusion h
                · rename_i s2 hatd
                  split at h
                  · exact Option.noConfusion h
                  · rename_i s3 hwd
                    have hframe23 : DebtFrame s2 s1 :=
                      ((coreFrame_nusdWithdraw hwd).trans (coreFrame_enqueue h)).toDebtFrame
                    refine Inv.ofDebtFrame hframe23 ?_
                    revert hatd
                    split
                    · rename_i hzero
                      intro hatd
                      obtain ⟨hle2, htd, htr, hcfg2, hpf, -, -, -, -, -, -, -, -, -⟩ :=
                        addTotalDebt_neg hamtPos hatd
                      have hdeq : trove.debtAmount = amount := by
                        have hz : trove.debtAmount - amount = 0 := hzero.1
                        omega
                      refine inv_rem_and_dec hInv htrove htr hcfg2 hpf ?_
                      intro a
                      rw [htd a, hdeq]
                      rfl
                    · rename_i hnotzero
                      intro hatd
                      obtain ⟨hle2, htd, htr, hcfg2, hpf, -, -, -, -, -, -, -, -, -⟩ :=
                        addTotalDebt_neg hamtPos hatd
                      simp only [saveTrove] at htr hcfg2 hpf
                      exact inv_set_and_dec hInv htrove rfl hle htr hcfg2 hpf htd
      · exact Option.noConfusion h

theorem debtFrame_comp {s s1 s2 : Contract} (h1 : DebtFrame s s1) (h2 : DebtFrame s1 s2) :
    DebtFrame s s2 :=
  ⟨h2.configs.trans h1.configs, h2.troves.trans h1.troves,
   h2.totalDebt.trans h1.totalDebt, h2.priceFeeds.trans h1.priceFeeds⟩

theorem coreFrame_accrueRewardPerShare {s s1 : Contract} {c : Nat} {amount : Nat}
    (h : accrueRewardPerShare s c amount = some s1) : CoreFrame s s1 := by
  simp only [accrueRewardPerShare] at h
  split at h
  · cases Option.some.inj h
    exact CoreFrame.rfl s
  · split at h
    · exact coreFrame_enqueue h
    · split at h
      · exact Option.noConfusion h
      · split at h
        · exact Option.noConfusion h
        · cases Option.some.inj h
          exact ⟨rfl, rfl, rfl, rfl, rfl, rfl, rfl, rfl, rfl⟩

/-- `burn_from_stability_pool` only touches the pool totals, the epoch and
the ledger. -/
theorem debtFrame_burnFromStabilityPool {s s1 : Contract} {amount : Nat}
    (h : burnFromStabilityPool s amount = some s1) :
    DebtFrame s s1 ∧ s1.ownerId = s.ownerId ∧ s1.contractId = s.contractId := by
  simp only [burnFromStabilityPool] at h
  split at h
  · exact Option.noConfusion h
  · split at h
    · exact Option.noConfusion h
    · split at h
      · exact Option.noConfusion h
      · rename_i s2 hwd
        have f := coreFrame_nusdWithdraw hwd
        split at h
        · cases Option.some.inj h
          exact ⟨⟨f.configs, f.troves, f.totalDebt, f.priceFeeds⟩, f.owner, f.contract⟩
        · cases Option.some.inj h
          exact ⟨⟨f.configs, f.troves, f.totalDebt, f.priceFeeds⟩, f.owner, f.contract⟩

theorem inv_liquidateLoop {c : Nat} {price : PriceFeedInternal}
    {config : CollateralConfigInternal} :
    ∀ {owners : List Nat} {s s1 : Contract} {processed n : Nat},
      Inv s → liquidateLoop c price config s owners processed = some (s1, n) → Inv s1 := by
  intro owners
  induction owners with
  | nil =>
    intro s s1 p n hInv h
    simp only [liquidateLoop] at h
    have hpair := Option.some.inj h
    injection hpair with h1 h2
    subst h1
    exact hInv
  | cons owner rest ih =>
    intro s s1 p n hInv h
    simp only [liquidateLoop] at h
    split at h
    · exact ih hInv h
    · rename_i trove htrove
      split at h
      · exact ih hInv h
      · rename_i hdebt0
        split at h
        · exact Option.noConfusion h
        · rename_i r hratio
          split at h
          · exact ih hInv h
          · split at h
            · exact Option.noConfusion h
            · split at h
              · exact Option.noConfusion h
              · rename_i pm hpm
                split at h
                · exact Option.noConfusion h
                · split at h
                  · exact Option.noConfusion h
                  · rename_i sA hacc
                    split at h
                    · exact Option.noConfusion h
                    · rename_i sB henq
                      split at h
                      · exact Option.noConfusion h
                      · rename_i sC hburn
                        have hDlt : trove.debtAmount < I128LIM :=
                          hInv.debtLt _ (alget_mem htrove)
                        rw [i128ofU128_small hDlt] at h
                        split at h
                        · exact Option.noConfusion h
                        · rename_i s4 hatd
                          obtain ⟨-, htd4, htr4, hcfg4, hpf4, -, -, -, -, -, -,
                            -, -, -⟩ := addTotalDebt_neg (Nat.pos_of_ne_zero hdebt0) hatd
                          obtain ⟨fC, -, -⟩ := debtFrame_burnFromStabilityPool hburn
                          have hDF : DebtFrame s sC :=
                            debtFrame_comp (((coreFrame_accrueRewardPerShare hacc).trans
                              (coreFrame_enqueue henq)).toDebtFrame) fC
                          have htd5 : ∀ a,
                              tdGet { s4 with troves := alrem s4.troves (owner, c) } a =
                              if a = c then tdGet s c - trove.debtAmount
                              else tdGet s a := by
                            intro a
                            have hstep : tdGet { s4 with
                                troves := alrem s4.troves (owner, c) } a = tdGet s4 a := rfl
                            rw [hstep, htd4 a]
                            simp only [tdGet, hDF.totalDebt]
                          have htr5 : ({ s4 with
                              troves := alrem s4.troves (owner, c) } : Contract).troves =
                              alrem s.troves (owner, c) := by
                            show alrem s4.troves (owner, c) = alrem s.troves (owner, c)
                            rw [htr4, hDF.troves]
                          have hcfg5 : ({ s4 with
                              troves := alrem s4.troves (owner, c) } : Contract).configs =
                              s.configs := by
                            show s4.configs = s.configs
                            rw [hcfg4, hDF.configs]
                          have hpf5 : ({ s4 with
                              troves := alrem s4.troves (owner, c) } : Contract).priceFeeds =
                              s.priceFeeds := by
                            show s4.priceFeeds = s.priceFeeds
                            rw [hpf4, hDF.priceFeeds]
                          exact ih (inv_rem_and_dec hInv htrove htr5 hcfg5 hpf5 htd5) h

theorem inv_liquidate {s s1 : Contract} {collateralId : Nat} {owners : List Nat} {n : Nat}
    (hInv : Inv s) (h : liquidate s collateralId owners = some (s1, n)) : Inv s1 := by
  simp only [liquidate] at h
  split at h
  · exact Option.noConfusion h
  · split at h
    · exact Option.noConfusion h
    · split at h
      · exact Option.noConfusion h
      · exact inv_liquidateLoop hInv h

theorem inv_exec {s s1 : Contract} {op : Op} (hInv : Inv s) (h : exec op s = some s1) :
    Inv s1 := by
  cases op with
  | registerCollateral caller tokenId config => exact inv_registerCollateral hInv h
  | submitPrice caller collateralId price decimals now => exact inv_submitPrice hInv h
  | depositCollateral ownerId collateralId amount now =>
    exact inv_internalDepositCollateral hInv h
  | borrow caller collateralId amount now => exact inv_borrow hInv h
  | repay caller collateralId amount now => exact inv_repay hInv h
  | withdrawCollateral caller collateralId amount now => exact inv_withdrawCollateral hInv h
  | closeTrove caller collateralId => exact inv_closeTrove hInv h
  | depositToStabilityPool caller amount =>
    exact Inv.ofDebtFrame (debtFrame_depositToStabilityPool h) hInv
  | withdrawFromStabilityPool caller amount =>
    exact Inv.ofDebtFrame (debtFrame_withdrawFromStabilityPool h) hInv
  | claimCollateralReward caller collateralId amount =>
    exact Inv.ofDebtFrame (debtFrame_claimCollateralReward h) hInv
  | redeem caller collateralId troveOwner amount now => exact inv_redeem hInv h
  | liquidate collateralId owners =>
    simp only [exec] at h
    split at h
    · exact Option.noConfusion h
    · rename_i s2 n heq
      cases Option.some.inj h
      exact inv_liquidate hInv heq
  | transferNusd sender receiver amount =>
    exact Inv.ofDebtFrame (coreFrame_transferNusd h).toDebtFrame hInv

/-- Every reachable contract state satisfies the bookkeeping invariant. -/
theorem reachable_inv {s : Contract} (h : Reachable s) : Inv s := by
  induction h with
  | base contractId ownerId intentRouterId pythOracleId =>
    exact inv_new contractId ownerId intentRouterId pythOracleId
  | step op hr hexec ih => exact inv_exec ih hexec

/-! Concrete execution traces used as witnesses and counterexamples.
Account ids: 1 = the contract account, 2 = protocol owner, 3 = intent
router, 4 = oracle, 10/11 = users, 20/21 = borrowers; token id 5 is the
collateral asset. -/

def s0 : Contract := Contract.new 1 2 3 4

theorem reachable_s0 : Reachable s0 := Reachable.base 1 2 3 4

/-- Collateral config with MCR 1100 bps and a large ceiling. -/
def cfgA : CollateralConfigInternal :=
  { oraclePriceId := "c", minCollateralRatioBps := 1100, recoveryCollateralRatioBps := 1100,
    debtCeiling := 10 ^ 9, liquidationPenaltyBps := 0, stabilityPoolMode := .Dedicated }

/-- Trace A: open a debt-free trove and withdraw all of its collateral. -/
def opA1 : Op := .registerCollateral 2 5 cfgA

def sA1 : Contract := (exec opA1 s0).getD s0

def opA2 : Op := .depositCollateral 10 5 100 0

def sA2 : Contract := (exec opA2 sA1).getD s0

def opA3 : Op := .withdrawCollateral 10 5 100 0

def sA3 : Contract := (exec opA3 sA2).getD s0

theorem reachable_sA1 : Reachable sA1 := Reachable.step opA1 reachable_s0 (by rfl)

theorem reachable_sA2 : Reachable sA2 := Reachable.step opA2 reachable_sA1 (by rfl)

theorem reachable_sA3 : Reachable sA3 := Reachable.step opA3 reachable_sA2 (by rfl)

/-- Trace B: borrow up to a ceiling of 100, then re-register the asset
with a ceiling of 50. -/
def cfgB : CollateralConfigInternal := { cfgA with debtCeiling := 100 }

def cfgB2 : CollateralConfigInternal := { cfgA with debtCeiling := 50 }

def opB1 : Op := .registerCollateral 2 5 cfgB

def sB1 : Contract := (exec opB1 s0).getD s0

def opB2 : Op := .submitPrice 4 5 100 0 0

def sB2 : Contract := (exec opB2 sB1).getD s0

def opB3 : Op := .depositCollateral 10 5 1000 0

def sB3 : Contract := (exec opB3 sB2).getD s0

def opB4 : Op := .borrow 10 5 100 0

def sB4 : Contract := (exec opB4 sB3).getD s0

def opB5 : Op := .registerCollateral 2 5 cfgB2

def sB5 : Contract := (exec opB5 sB4).getD s0

theorem reachable_sB1 : Reachable sB1 := Reachable.step opB1 reachable_s0 (by rfl)

theorem reachable_sB2 : Reachable sB2 := Reachable.step opB2 reachable_sB1 (by rfl)

theorem reachable_sB3 : Reachable sB3 := Reachable.step opB3 reachable_sB2 (by rfl)

theorem reachable_sB4 : Reachable sB4 := Reachable.step opB4 reachable_sB3 (by rfl)

theorem reachable_sB5 : Reachable sB5 := Reachable.step opB5 reachable_sB4 (by rfl)

/-- Trace C: a healthy borrow followed by a price drop below the MCR,
with an empty stability pool. -/
def cfgC : CollateralConfigInternal :=
  { oraclePriceId := "c", minCollateralRatioBps := 1300, recoveryCollateralRatioBps := 1500,
    debtCeiling := 10 ^ 12, liquidationPenaltyBps := 50, stabilityPoolMode := .Dedicated }

def opC1 : Op := .registerCollateral 2 5 cfgC

def sC1 : Contract := (exec opC1 s0).getD s0

def opC2 : Op := .submitPrice 4 5 20000 2 0

def sC2 : Contract := (exec opC2 sC1).getD s0

def opC3 : Op := .depositCollateral 10 5 10000 0

def sC3 : Contract := (exec opC3 sC2).getD s0

def opC4 : Op := .borrow 10 5 4000 0

def sC4 : Contract := (exec opC4 sC3).getD s0

def opC5 : Op := .submitPrice 4 5 5 2 0

def sC5 : Contract := (exec opC5 sC4).getD s0

theorem reachable_sC1 : Reachable sC1 := Reachable.step opC1 reachable_s0 (by rfl)

theorem reachable_sC2 : Reachable sC2 := Reachable.step opC2 reachable_sC1 (by rfl)

theorem reachable_sC3 : Reachable sC3 := Reachable.step opC3 reachable_sC2 (by rfl)

theorem reachable_sC4 : Reachable sC4 := Reachable.step opC4 reachable_sC3 (by rfl)

theorem reachable_sC5 : Reachable sC5 := Reachable.step opC5 reachable_sC4 (by rfl)

/-- Successful redemption out of the reachable state `sC5`. -/
def sC6R : Contract := (redeem sC5 10 5 10 100 0).getD sC5

/-- Trace D: two borrowers are liquidated in consecutive pool epochs; the
stale epoch-0 depositor (account 10) is then settled. -/
def opD1 : Op := .registerCollateral 2 5 cfgA

def sD1 : Contract := (exec opD1 s0).getD s0

def opD2 : Op := .submitPrice 4 5 100 0 0

def sD2 : Contract := (exec opD2 sD1).getD s0

def opD3 : Op := .depositCollateral 20 5 10 0

def sD3 : Contract := (exec opD3 sD2).getD s0

def opD4 : Op := .borrow 20 5 100 0

def sD4 : Contract := (exec opD4 sD3).getD s0

def opD5 : Op := .depositCollateral 21 5 10 0

def sD5 : Contract := (exec opD5 sD4).getD s0

def opD6 : Op := .borrow 21 5 100 0

def sD6 : Contract := (exec opD6 sD5).getD s0

def opD7 : Op := .transferNusd 20 10 100

def sD7 : Contract := (exec opD7 sD6).getD s0

def opD8 : Op := .transferNusd 21 11 100

def sD8 : Contract := (exec opD8 sD7).getD s0

def opD9 : Op := .depositToStabilityPool 10 100

def sD9 : Contract := (exec opD9 sD8).getD s0

def opD10 : Op := .submitPrice 4 5 1 0 0

def sD10 : Contract := (exec opD10 sD9).getD s0

def opD11 : Op := .liquidate 5 [20]

def sD11 : Contract := (exec opD11 sD10).getD s0

def opD12 : Op := .depositToStabilityPool 11 100

def sD12 : Contract := (exec opD12 sD11).getD s0

def opD13 : Op := .liquidate 5 [21]

def sD13 : Contract := (exec opD13 sD12).getD s0

def opD14 : Op := .claimCollateralReward 10 5 (some 1)

def sD14 : Contract := (exec opD14 sD13).getD s0

theorem reachable_sD1 : Reachable sD1 := Reachable.step opD1 reachable_s0 (by rfl)

theorem reachable_sD2 : Reachable sD2 := Reachable.step opD2 reachable_sD1 (by rfl)

theorem reachable_sD3 : Reachable sD3 := Reachable.step opD3 reachable_sD2 (by rfl)

theorem reachable_sD4 : Reachable sD4 := Reachable.step opD4 reachable_sD3 (by rfl)

theorem reachable_sD5 : Reachable sD5 := Reachable.step opD5 reachable_sD4 (by rfl)

theorem reachable_sD6 : Reachable sD6 := Reachable.step opD6 reachable_sD5 (by rfl)

theorem reachable_sD7 : Reachable sD7 := Reachable.step opD7 reachable_sD6 (by rfl)

theorem reachable_sD8 : Reachable sD8 := Reachable.step opD8 reachable_sD7 (by rfl)

theorem reachable_sD9 : Reachable sD9 := Reachable.step opD9 reachable_sD8 (by rfl)

theorem reachable_sD10 : Reachable sD10 := Reachable.step opD10 reachable_sD9 (by rfl)

theorem reachable_sD11 : Reachable sD11 := Reachable.step opD11 reachable_sD10 (by rfl)

theorem reachable_sD12 : Reachable sD12 := Reachable.step opD12 reachable_sD11 (by rfl)

theorem reachable_sD13 : Reachable sD13 := Reachable.step opD13 reachable_sD12 (by rfl)

theorem reachable_sD14 : Reachable sD14 := Reachable.step opD14 reachable_sD13 (by rfl)

/-! Further helper characterizations used by the claim theorems. -/

theorem nusdWithdraw_spec {s s1 : Contract} {a : Nat} {amount : Nat}
    (h : nusdWithdraw s a amount = some s1) :
    amount ≤ nusdBalance s a ∧ nusdBalance s1 a = nusdBalance s a - amount ∧
    s1.collateralRewards = s.collateralRewards ∧ s1.totalDebt = s.totalDebt ∧
    s1.troves = s.troves := by
  simp only [nusdWithdraw] at h
  split at h
  · rename_i hle
    cases Option.some.inj h
    refine ⟨hle, ?_, rfl, rfl, rfl⟩
    show (alget (alset s.nusd a (nusdBalance s a - amount)) a).getD 0 = _
    rw [alget_alset_self]
    rfl
  · exact Option.noConfusion h

theorem enqueue_spec {s s1 : Contract} {a c : Nat} {amount : Nat}
    (h : enqueueCollateralReward s a c amount = some s1) :
    s1.nusd = s.nusd ∧ s1.totalDebt = s.totalDebt ∧ s1.troves = s.troves ∧
    (alget s1.collateralRewards (a, c)).getD 0 =
      (alget s.collateralRewards (a, c)).getD 0 + amount := by
  simp only [enqueueCollateralReward] at h
  split at h
  · rename_i h0
    cases Option.some.inj h
    exact ⟨rfl, rfl, rfl, by omega⟩
  · split at h
    · exact Option.noConfusion h
    · rename_i cur hadd
      obtain ⟨-, he⟩ := checkedAdd_some hadd
      cases Option.some.inj h
      refine ⟨rfl, rfl, rfl, ?_⟩
      show (alget (alset s.collateralRewards (a, c) cur) (a, c)).getD 0 = _
      rw [alget_alset_self]
      simp [he]

theorem addTotalDebt_frames {s s1 : Contract} {c : Nat} {delta : Int}
    (h : addTotalDebt s c delta = some s1) :
    s1.troves = s.troves ∧ s1.configs = s.configs ∧ s1.priceFeeds = s.priceFeeds ∧
    s1.nusd = s.nusd ∧ s1.collateralRewards = s.collateralRewards := by
  simp only [addTotalDebt] at h
  split at h
  · split at h
    · exact Option.noConfusion h
    · split at h
      · exact Option.noConfusion h
      · split at h
        · cases Option.some.inj h
          exact ⟨rfl, rfl, rfl, rfl, rfl⟩
        · exact Option.noConfusion h
  · split at h
    · cases Option.some.inj h
      exact ⟨rfl, rfl, rfl, rfl, rfl⟩
    · exact Option.noConfusion h

/-! Claim theorems. -/

/-- C6: the collateralization-ratio function returns the maximum
representable `u128` value when the debt is zero, otherwise the value
`collateral * price / 10 ^ decimals * 10000 / debt` with truncating
division, and every multiplication is overflow-checked: an overflow
aborts the call (`none`) instead of wrapping. -/
theorem claim_C6_theorem :
    ∀ (collateral debt : Nat) (price : PriceFeedInternal),
      (debt = 0 → collateralRatioBps collateral debt price = some (U128LIM - 1)) ∧
      (debt ≠ 0 → collateral * price.price < U128LIM →
        collateral * price.price / decimalsFactor price.decimals * BPS_DENOMINATOR <
          U128LIM →
        collateralRatioBps collateral debt price =
          some (collateral * price.price / decimalsFactor price.decimals *
            BPS_DENOMINATOR / debt)) ∧
      (debt ≠ 0 →
        (U128LIM ≤ collateral * price.price ∨
          (collateral * price.price < U128LIM ∧
            U128LIM ≤ collateral * price.price / decimalsFactor price.decimals *
              BPS_DENOMINATOR)) →
        collateralRatioBps collateral debt price = none) := by
  intro collateral debt price
  refine ⟨?_, ?_, ?_⟩
  · intro h0
    simp [collateralRatioBps, h0]
  · intro hd h1 h2
    simp [collateralRatioBps, checkedMul, hd, h1, h2]
  · intro hd hor
    rcases hor with h1 | ⟨h1, h2⟩
    · simp [collateralRatioBps, checkedMul, hd, Nat.not_lt.mpr h1]
    · simp [collateralRatioBps, checkedMul, hd, h1, Nat.not_lt.mpr h2]

/-- C6 witness: the sentinel on zero debt, and the documented scenario
ratio 10000 collateral at price 200.00 against 4000 debt. -/
theorem claim_C6_witness :
    collateralRatioBps 10000 0 { price := 20000, decimals := 2, lastUpdateTimestamp := 0 } =
      some (U128LIM - 1) ∧
    collateralRatioBps 10000 4000 { price := 20000, decimals := 2, lastUpdateTimestamp := 0 } =
      some 5000000 :=
  ⟨(claim_C6_theorem 10000 0 _).1 rfl,
   ((claim_C6_theorem 10000 4000 _).2.1 (by decide) (by decide) (by decide)).trans
     (by decide)⟩

/-- C7: share pricing is `amount` itself on an empty pool (zero total
shares or zero pooled stablecoin), and otherwise
`amount * total_shares / total_pooled_stablecoin` with truncating
division (under the checked-multiplication bound). -/
theorem claim_C7_theorem :
    ∀ (s : Contract) (amount : Nat),
      ((s.stabilityPoolTotalShares = 0 ∨ s.stabilityPoolTotalNusd = 0) →
        sharesFromAmount s amount = some amount) ∧
      (s.stabilityPoolTotalShares ≠ 0 → s.stabilityPoolTotalNusd ≠ 0 →
        amount * s.stabilityPoolTotalShares < U128LIM →
        sharesFromAmount s amount =
          some (amount * s.stabilityPoolTotalShares / s.stabilityPoolTotalNusd)) := by
  intro s amount
  constructor
  · intro h
    simp [sharesFromAmount, h]
  · intro h1 h2 h3
    simp [sharesFromAmount, checkedMul, h1, h2, h3]

def sPool : Contract :=
  { s0 with stabilityPoolTotalShares := 3, stabilityPoolTotalNusd := 1000 }

/-- C7 witness: bootstrap pricing on the empty fresh pool, and truncation
to zero shares on a small deposit into a diluted pool. -/
theorem claim_C7_witness :
    sharesFromAmount s0 7 = some 7 ∧ sharesFromAmount sPool 100 = some 0 :=
  ⟨(claim_C7_theorem s0 7).1 (Or.inl rfl),
   ((claim_C7_theorem sPool 100).2 (by decide) (by decide) (by decide)).trans (by decide)⟩

/-- C10: `submit_price` rejects a zero price, and in every reachable
state every stored price feed has a positive price, so the division by
`price` in the redemption collateral computation always has a positive
divisor for any asset with a stored feed. -/
theorem claim_C10_theorem :
    (∀ (s : Contract) (caller c decimals now : Nat),
      submitPrice s caller c 0 decimals now = none) ∧
    (∀ s : Contract, Reachable s → ∀ (c : Nat) (feed : PriceFeedInternal),
      alget s.priceFeeds c = some feed → 1 ≤ feed.price) := by
  constructor
  · intro s caller c decimals now
    simp [submitPrice]
  · intro s hr c feed hfeed
    exact (reachable_inv hr).pricePos _ (alget_mem hfeed)

/-- C10 witness: a zero-price submission by the oracle is rejected, and
the stored feed of the reachable state `sC5` has a positive price. -/
theorem claim_C10_witness :
    submitPrice s0 4 5 0 2 0 = none ∧
    alget sC5.priceFeeds 5 = some { price := 5, decimals := 2, lastUpdateTimestamp := 0 } ∧
    (1 : Nat) ≤ 5 :=
  ⟨claim_C10_theorem.1 s0 4 5 2 0, by decide,
   claim_C10_theorem.2 sC5 reachable_sC5 5
     { price := 5, decimals := 2, lastUpdateTimestamp := 0 } (by decide)⟩

/-- C9: a stability-pool deposit whose share pricing truncates to zero
shares is rejected (the whole call fails, hence no state change), even
though the deposited amount is positive. -/
theorem claim_C9_theorem :
    ∀ (s : Contract) (caller amount : Nat),
      amount ≠ 0 → s.stabilityPoolTotalShares ≠ 0 → s.stabilityPoolTotalNusd ≠ 0 →
      amount * s.stabilityPoolTotalShares / s.stabilityPoolTotalNusd = 0 →
      depositToStabilityPool s caller amount = none := by
  intro s caller amount hamt hts htn hzero
  cases hsettle : settleStabilityRewards s caller with
  | none => simp [depositToStabilityPool, hamt, hsettle]
  | some s1 =>
    have f1 := coreFrame_settleStabilityRewards hsettle
    cases hens : ensureDepositEpoch s1 caller
        ((alget s1.stabilityPoolDeposits caller).getD
          (StabilityDeposit.new s1.stabilityPoolEpoch)) with
    | none => simp [depositToStabilityPool, hamt, hsettle, hens]
    | some pr =>
      obtain ⟨s2, dep⟩ := pr
      have f2 := coreFrame_ensureDepositEpoch hens
      have hts2 : s2.stabilityPoolTotalShares ≠ 0 := by
        rw [f2.totalShares, f1.totalShares]
        exact hts
      have htn2 : s2.stabilityPoolTotalNusd ≠ 0 := by
        rw [f2.totalNusd, f1.totalNusd]
        exact htn
      cases hsfa : sharesFromAmount s2 amount with
      | none => simp [depositToStabilityPool, hamt, hsettle, hens, hsfa]
      | some sh =>
        have hsh0 : sh = 0 := by
          simp only [sharesFromAmount] at hsfa
          rw [if_neg (by push_neg; exact ⟨hts2, htn2⟩)] at hsfa
          cases hcm : checkedMul amount s2.stabilityPoolTotalShares with
          | none =>
            rw [hcm] at hsfa
            exact Option.noConfusion hsfa
          | some m =>
            rw [hcm] at hsfa
            obtain ⟨-, hme⟩ := checkedMul_some hcm
            have hdiv := Option.some.inj hsfa
            subst hme
            rw [f2.totalShares, f1.totalShares, f2.totalNusd, f1.totalNusd] at hdiv
            omega
        subst hsh0
        simp [depositToStabilityPool, hamt, hsettle, hens, hsfa]

/-- C9 witness: depositing 100 into a pool with 3 total shares backing
1000 pooled stablecoin prices to 300 / 1000 = 0 shares and is rejected. -/
theorem claim_C9_witness :
    (100 : Nat) ≠ 0 ∧ sPool.stabilityPoolTotalShares ≠ 0 ∧
    sPool.stabilityPoolTotalNusd ≠ 0 ∧
    100 * sPool.stabilityPoolTotalShares / sPool.stabilityPoolTotalNusd = 0 ∧
    depositToStabilityPool sPool 10 100 = none :=
  ⟨by decide, by decide, by decide, by decide,
   claim_C9_theorem sPool 10 100 (by decide) (by decide) (by decide) (by decide)⟩

/-- C5 counterexample: the claim says no reachable state stores a trove
with both fields zero, but withdrawing the full collateral of a debt-free
trove saves the record with collateral 0 and debt 0 instead of removing
it: state `sA3` is reachable and stores exactly such a trove. -/
theorem claim_C5_counterexample :
    Reachable sA3 ∧
    alget sA3.troves (10, 5) = some { ownerId := 10, collateralId := 5, collateralAmount := 0, debtAmount := 0, lastUpdateTimestamp := 0 } :=
  ⟨reachable_sA3, by decide⟩

/-- C5 amended: only `redeem` removes a trove whose two fields reach
zero; `withdraw_collateral` saves the record even when both fields are
zero, so a reachable state can store a trove with collateral 0 and
debt 0. -/
theorem claim_C5_amended_theorem :
    (∀ (s s1 : Contract) (caller c troveOwner amount now : Nat),
      redeem s caller c troveOwner amount now = some s1 →
      ∀ t : TroveInternal, alget s1.troves (troveOwner, c) = some t →
        t.debtAmount ≠ 0 ∨ t.collateralAmount ≠ 0) ∧
    (Reachable sA3 ∧
      alget sA3.troves (10, 5) = some { ownerId := 10, collateralId := 5, collateralAmount := 0, debtAmount := 0, lastUpdateTimestamp := 0 } ∧
      withdrawCollateral sA2 10 5 100 0 = some sA3) := by
  constructor
  · intro s s1 caller c troveOwner amount now h t ht
    simp only [redeem] at h
    split at h
    · exact Option.noConfusion h
    · split at h
      · exact Option.noConfusion h
      · rename_i trove htrove
        split at h
        · split at h
          · exact Option.noConfusion h
          · rename_i price hprice
            split at h
            · exact Option.noConfusion h
            · rename_i m hm
              split at h
              · exact Option.noConfusion h
              · split at h
                · exact Option.noConfusion h
                · split at h
                  · exact Option.noConfusion h
                  · rename_i s2 hatd
                    split at h
                    · exact Option.noConfusion h
                    · rename_i s3 hwd
                      have htr1 : s1.troves = s3.troves := (enqueue_spec h).2.2.1
                      have htr2 : s3.troves = s2.troves :=
                        (nusdWithdraw_spec hwd).2.2.2.2
                      rw [htr1, htr2] at ht
                      revert hatd
                      split
                      · intro hatd
                        rw [(addTotalDebt_frames hatd).1] at ht
                        have : alget (alrem s.troves (troveOwner, c)) (troveOwner, c) =
                            none := alget_alrem_self _ _
                        rw [show ({ s with troves := alrem s.troves (troveOwner, c) } :
                          Contract).troves = alrem s.troves (troveOwner, c) from rfl,
                          this] at ht
                        exact Option.noConfusion ht
                      · rename_i hnz
                        intro hatd
                        rw [(addTotalDebt_frames hatd).1] at ht
                        rw [show (saveTrove s troveOwner c { trove with debtAmount := trove.debtAmount - amount, collateralAmount := trove.collateralAmount - m / price.price, lastUpdateTimestamp := now }).troves = alset s.troves (troveOwner, c) { trove with debtAmount := trove.debtAmount - amount, collateralAmount := trove.collateralAmount - m / price.price, lastUpdateTimestamp := now } from rfl,
                          alget_alset_self] at ht
                        have hteq := Option.some.inj ht
                        subst hteq
                        have hnz2 : ¬(trove.debtAmount - amount = 0 ∧
                          trove.collateralAmount - m / price.price = 0) := hnz
                        show trove.debtAmount - amount ≠ 0 ∨
                          trove.collateralAmount - m / price.price ≠ 0
                        by_cases hd0 : trove.debtAmount - amount = 0
                        · exact Or.inr (fun hc0 => hnz2 ⟨hd0, hc0⟩)
                        · exact Or.inl hd0
        · exact Option.noConfusion h
  · exact ⟨reachable_sA3, by decide, by rfl⟩

/-- C5 amended witness: a successful partial redemption out of `sC5`
leaves the targeted trove stored with nonzero fields. -/
theorem claim_C5_amended_witness :
    redeem sC5 10 5 10 100 0 = some sC6R ∧
    ((3900 : Nat) ≠ 0 ∨ (8000 : Nat) ≠ 0) :=
  ⟨by rfl,
   claim_C5_amended_theorem.1 sC5 sC6R 10 5 10 100 0 (by rfl)
     { ownerId := 10, collateralId := 5, collateralAmount := 8000, debtAmount := 3900, lastUpdateTimestamp := 0 } (by decide)⟩

/-- C4: immediately after a successful borrow or collateral withdrawal,
the affected trove, when it carries positive debt, satisfies
`ratio >= min_collateral_ratio_bps` at the stored price. -/
theorem claim_C4_theorem :
    ∀ (s s1 : Contract) (caller c amount now : Nat),
      (borrow s caller c amount now = some s1 ∨
        withdrawCollateral s caller c amount now = some s1) →
      ∀ t : TroveInternal, alget s1.troves (caller, c) = some t → 0 < t.debtAmount →
        ∃ (feed : PriceFeedInternal) (config : CollateralConfigInternal) (r : Nat),
          alget s1.priceFeeds c = some feed ∧ alget s1.configs c = some config ∧
          collateralRatioBps t.collateralAmount t.debtAmount feed = some r ∧
          config.minCollateralRatioBps ≤ r := by
  intro s s1 caller c amount now hop t ht htpos
  rcases hop with h | h
  · simp only [borrow] at h
    split at h
    · exact Option.noConfusion h
    · split at h
      · exact Option.noConfusion h
      · rename_i trove htrove
        split at h
        · exact Option.noConfusion h
        · rename_i config hcfg
          split at h
          · exact Option.noConfusion h
          · rename_i price hprice
            split at h
            · exact Option.noConfusion h
            · rename_i newDebt hadd
              split at h
              · split at h
                · exact Option.noConfusion h
                · rename_i r hratio
                  split at h
                  · rename_i hmcr
                    split at h
                    · exact Option.noConfusion h
                    · rename_i s2 hatd
                      have fD := coreFrame_nusdDeposit h
                      obtain ⟨ht2, hc2, hp2, -, -⟩ := addTotalDebt_frames hatd
                      have htr : s1.troves = alset s.troves (caller, c) { trove with debtAmount := newDebt, lastUpdateTimestamp := now } := by
                        rw [fD.troves, ht2]
                        rfl
                      rw [htr, alget_alset_self] at ht
                      have hteq := Option.some.inj ht
                      subst hteq
                      refine ⟨price, config, r, ?_, ?_, hratio, hmcr⟩
                      · rw [fD.priceFeeds, hp2]
                        exact hprice
                      · rw [fD.configs, hc2]
                        exact hcfg
                  · exact Option.noConfusion h
              · exact Option.noConfusion h
  · simp only [withdrawCollateral] at h
    split at h
    · exact Option.noConfusion h
    · rename_i trove htrove
      split at h
      · split at h
        · rename_i hdebtpos
          split at h
          · exact Option.noConfusion h
          · rename_i price hprice
            split at h
            · exact Option.noConfusion h
            · rename_i config hcfg
              split at h
              · exact Option.noConfusion h
              · rename_i r hratio
                split at h
                · rename_i hmcr
                  split at h
                  · exact Option.noConfusion h
                  · cases Option.some.inj h
                    rw [show (saveTrove s caller c { trove with collateralAmount := trove.collateralAmount - amount, lastUpdateTimestamp := now }).troves = alset s.troves (caller, c) { trove with collateralAmount := trove.collateralAmount - amount, lastUpdateTimestamp := now } from rfl,
                      alget_alset_self] at ht
                    have hteq := Option.some.inj ht
                    subst hteq
                    exact ⟨price, config, r, hprice, hcfg, hratio, hmcr⟩
                · exact Option.noConfusion h
        · rename_i hdebt0
          split at h
          · exact Option.noConfusion h
          · cases Option.some.inj h
            rw [show (saveTrove s caller c { trove with collateralAmount := trove.collateralAmount - amount, lastUpdateTimestamp := now }).troves = alset s.troves (caller, c) { trove with collateralAmount := trove.collateralAmount - amount, lastUpdateTimestamp := now } from rfl,
              alget_alset_self] at ht
            have hteq := Option.some.inj ht
            subst hteq
            exact absurd htpos hdebt0
      · exact Option.noConfusion h

/-- C4 witness: the borrow in trace B succeeds and the resulting trove
with 1000 collateral and 100 debt meets its MCR at the stored price. -/
theorem claim_C4_witness :
    borrow sB3 10 5 100 0 = some sB4 ∧
    (∃ (feed : PriceFeedInternal) (config : CollateralConfigInternal) (r : Nat),
      alget sB4.priceFeeds 5 = some feed ∧ alget sB4.configs 5 = some config ∧
      collateralRatioBps 1000 100 feed = some r ∧ config.minCollateralRatioBps ≤ r) :=
  ⟨by rfl,
   claim_C4_theorem sB3 sB4 10 5 100 0 (Or.inl (by rfl))
     { ownerId := 10, collateralId := 5, collateralAmount := 1000, debtAmount := 100, lastUpdateTimestamp := 0 } (by decide) (by decide)⟩

theorem liquidateLoop_append {c : Nat} {price : PriceFeedInternal}
    {config : CollateralConfigInternal} :
    ∀ (l1 l2 : List Nat) (s : Contract) (p : Nat),
      liquidateLoop c price config s (l1 ++ l2) p =
        match liquidateLoop c price config s l1 p with
        | none => none
        | some (s1, p1) => liquidateLoop c price config s1 l2 p1 := by
  intro l1
  induction l1 with
  | nil =>
    intro l2 s p
    simp [liquidateLoop]
  | cons owner rest ih =>
    intro l2 s p
    simp only [List.cons_append, liquidateLoop]
    split
    · exact ih l2 s p
    · split
      · exact ih l2 s p
      · split
        · rfl
        · split
          · exact ih l2 s p
          · split
            · rfl
            · split
              · rfl
              · split
                · rfl
                · split
                  · rfl
                  · split
                    · rfl
                    · split
                      · rfl
                      · split
                        · rfl
                        · exact ih l2 _ _

/-- Encountering an undercollateralized trove whose debt exceeds the
pooled stablecoin aborts the whole batch with an error. -/
theorem liquidateLoop_insufficient {c : Nat} {price : PriceFeedInternal}
    {config : CollateralConfigInternal} {s : Contract} {owner : Nat} {rest : List Nat}
    {p : Nat} {trove : TroveInternal} {r : Nat}
    (htrove : alget s.troves (owner, c) = some trove) (hd : trove.debtAmount ≠ 0)
    (hr : collateralRatioBps trove.collateralAmount trove.debtAmount price = some r)
    (hlt : r < config.minCollateralRatioBps)
    (hpool : s.stabilityPoolTotalNusd < trove.debtAmount) :
    liquidateLoop c price config s (owner :: rest) p = none := by
  simp [liquidateLoop, htrove, hd, hr, Nat.not_le.mpr hlt, hpool]

/-- C1 counterexample: in the reachable state `sC5` the trove of owner 10
has positive debt 4000, ratio 1250 bps below the MCR of 1300 bps, and the
stability pool holds 0 < 4000 pooled stablecoin; the claim says the
batch call `liquidate(5, [10, 11])` skips that trove and returns
normally, but it returns an error. -/
theorem claim_C1_counterexample :
    Reachable sC5 ∧
    alget sC5.troves (10, 5) = some { ownerId := 10, collateralId := 5, collateralAmount := 10000, debtAmount := 4000, lastUpdateTimestamp := 0 } ∧
    alget sC5.configs 5 = some cfgC ∧
    alget sC5.priceFeeds 5 = some { price := 5, decimals := 2, lastUpdateTimestamp := 0 } ∧
    collateralRatioBps 10000 4000 { price := 5, decimals := 2, lastUpdateTimestamp := 0 } =
      some 1250 ∧
    (1250 : Nat) < cfgC.minCollateralRatioBps ∧
    sC5.stabilityPoolTotalNusd < 4000 ∧
    liquidate sC5 5 [10, 11] = none :=
  ⟨reachable_sC5, by decide, by decide, by decide, by decide, by decide, by decide,
   by decide⟩

/-- C1 amended: when the batch reaches an owner whose trove has positive
debt and a ratio below the MCR while the pooled stablecoin is smaller
than that trove debt, the entire liquidate call fails with an error (no
state change at the transaction level) instead of skipping the trove;
owners later in the batch are not processed. -/
theorem claim_C1_amended_theorem :
    ∀ (s sMid : Contract) (c : Nat) (owners1 owners2 : List Nat) (owner : Nat)
      (price : PriceFeedInternal) (config : CollateralConfigInternal)
      (pMid : Nat) (trove : TroveInternal) (r : Nat),
      alget s.priceFeeds c = some price →
      alget s.configs c = some config →
      liquidateLoop c price config s owners1 0 = some (sMid, pMid) →
      alget sMid.troves (owner, c) = some trove →
      trove.debtAmount ≠ 0 →
      collateralRatioBps trove.collateralAmount trove.debtAmount price = some r →
      r < config.minCollateralRatioBps →
      sMid.stabilityPoolTotalNusd < trove.debtAmount →
      liquidate s c (owners1 ++ owner :: owners2) = none := by
  intro s sMid c owners1 owners2 owner price config pMid trove r hpf hcfg hmid htrove hd
    hr hlt hpool
  have hne : ¬(owners1 ++ owner :: owners2 = []) := by simp
  simp only [liquidate, if_neg hne, hpf, hcfg]
  rw [liquidateLoop_append owners1 (owner :: owners2) s 0, hmid]
  exact liquidateLoop_insufficient htrove hd hr hlt hpool

/-- C1 amended witness: the amended behaviour instantiated on `sC5` with
owner 10 heading the batch. -/
theorem claim_C1_amended_witness :
    liquidate sC5 5 [10, 11] = none :=
  claim_C1_amended_theorem sC5 sC5 5 [] [11] 10
    { price := 5, decimals := 2, lastUpdateTimestamp := 0 } cfgC 0
    { ownerId := 10, collateralId := 5, collateralAmount := 10000, debtAmount := 4000, lastUpdateTimestamp := 0 } 1250
    (by decide) (by decide) (by rfl) (by decide) (by decide) (by decide) (by decide)
    (by decide)

/-- C3 counterexample: the claim says total debt never exceeds the
asset's debt ceiling in any reachable state, but `register_collateral`
re-registers an asset with a lower ceiling without checking the current
total: in the reachable state `sB5` the stored total debt is 100 while
the stored ceiling is 50. -/
theorem claim_C3_counterexample :
    Reachable sB5 ∧
    alget sB5.configs 5 = some cfgB2 ∧
    tdGet sB5 5 = 100 ∧
    cfgB2.debtCeiling = 50 ∧
    cfgB2.debtCeiling < tdGet sB5 5 :=
  ⟨reachable_sB5, by decide, by decide, by decide, by decide⟩

/-- C3 amended: in every reachable state the stored total debt of each
asset equals the sum of `debt_amount` over its troves; every successful
borrow leaves the total at or below the ceiling stored after the call;
but an owner re-registration with a lower ceiling can leave the total
above the ceiling. -/
theorem claim_C3_amended_theorem :
    (∀ s : Contract, Reachable s → ∀ a : Nat, tdGet s a = sumDebt a s.troves) ∧
    (∀ (s s1 : Contract) (caller c amount now : Nat)
      (config : CollateralConfigInternal),
      Reachable s → borrow s caller c amount now = some s1 →
      alget s1.configs c = some config → tdGet s1 c ≤ config.debtCeiling) := by
  constructor
  · intro s hr a
    exact (reachable_inv hr).debtEq a
  · intro s s1 caller c amount now config hr h hcfg1
    have hInv := reachable_inv hr
    simp only [borrow] at h
    split at h
    · exact Option.noConfusion h
    · split at h
      · exact Option.noConfusion h
      · rename_i trove htrove
        split at h
        · exact Option.noConfusion h
        · rename_i configB hcfgB
          split at h
          · exact Option.noConfusion h
          · rename_i price hprice
            split at h
            · exact Option.noConfusion h
            · rename_i newDebt hadd
              split at h
              · split at h
                · exact Option.noConfusion h
                · rename_i r hratio
                  split at h
                  · rename_i hmcr
                    split at h
                    · exact Option.noConfusion h
                    · rename_i s2 hatd
                      obtain ⟨-, hndEq⟩ := checkedAdd_some hadd
                      have hnd0 : newDebt ≠ 0 := by
                        rename_i hamt _ _ _ _ _ _
                        omega
                      obtain ⟨hv1, hv2, hrEq⟩ := collateralRatioBps_pos_debt hnd0 hratio
                      have hmcr1100 : 1100 ≤ configB.minCollateralRatioBps :=
                        hInv.mcrLb _ (alget_mem hcfgB)
                      have hndLt : newDebt < I128LIM :=
                        debt_lt_of_ratio (Nat.pos_of_ne_zero hnd0) hv2 hrEq hmcr hmcr1100
                      rw [i128ofU128_small (by omega : amount < I128LIM)] at hatd
                      obtain ⟨htd, ⟨cfg0, hcfg0, hceil0⟩, -, hcfgEq, -, -, -, -, -, -,
                        -, -, -, -⟩ := addTotalDebt_nonneg hatd
                      have fD := coreFrame_nusdDeposit h
                      have hcfgS : alget s.configs c = some config := by
                        have h1 : s1.configs = s.configs := by
                          rw [fD.configs, hcfgEq]
                          rfl
                        rw [h1] at hcfg1
                        exact hcfg1
                      have hcfg00 : alget s.configs c = some cfg0 := hcfg0
                      have hcc : cfg0 = config := by
                        rw [hcfgS] at hcfg00
                        exact (Option.some.inj hcfg00).symm
                      have htd1 : tdGet s1 c = tdGet s2 c := by
                        simp only [tdGet, fD.totalDebt]
                      rw [htd1, htd c, if_pos rfl]
                      have hsave : tdGet (saveTrove s caller c { trove with debtAmount := newDebt, lastUpdateTimestamp := now }) c = tdGet s c := rfl
                      rw [hsave]
                      rw [hsave] at hceil0
                      rw [← hcc]
                      exact hceil0
                  · exact Option.noConfusion h
              · exact Option.noConfusion h

/-- C3 amended witness: sum equality in `sB5`, and the trace-B borrow
ends at or below the ceiling in force at the time of the call. -/
theorem claim_C3_amended_witness :
    (tdGet sB5 5 = sumDebt 5 sB5.troves) ∧
    (borrow sB3 10 5 100 0 = some sB4 ∧ tdGet sB4 5 ≤ cfgB.debtCeiling) :=
  ⟨claim_C3_amended_theorem.1 sB5 reachable_sB5 5,
   by rfl,
   claim_C3_amended_theorem.2 sB3 sB4 10 5 100 0 cfgB reachable_sB3 (by rfl) (by decide)⟩

/-- C2: the claim matches the specification, but the code violates it.
In trace D, account 10 deposits 100 (100 shares, epoch 0); liquidating
borrower 20 accrues reward-per-share `10^23` and drains the pool, ending
epoch 0; account 11 then deposits in epoch 1 and liquidating borrower 21
accrues a further `10^23` (total `2 * 10^23`).  The pending reward of the
stale epoch-0 record up to its depletion point is
`100 * 10^23 / 10^24 = 10`, but the first operation touching it
(`claim_collateral_reward` of 1 unit) credits
`100 * 2 * 10^23 / 10^24 = 20`, leaving 19 claimable after the claim:
the stale deposit also captured the epoch-1 rewards belonging to
account 11. -/
theorem claim_C2_bug_trace :
    Reachable sD14 ∧
    alget sD9.stabilityPoolDeposits 10 =
      some { shares := 100, rewardDebt := [], epoch := 0 } ∧
    alget sD11.rewardPerShare 5 = some (10 ^ 23) ∧
    sD11.stabilityPoolEpoch = 1 ∧
    alget sD13.rewardPerShare 5 = some (2 * 10 ^ 23) ∧
    sD13.stabilityPoolEpoch = 2 ∧
    100 * 10 ^ 23 / REWARD_SCALE = 10 ∧
    100 * (2 * 10 ^ 23) / REWARD_SCALE = 20 ∧
    alget sD13.collateralRewards (10, 5) = none ∧
    alget sD14.collateralRewards (10, 5) = some 19 :=
  ⟨reachable_sD14, by decide, by decide, by decide, by decide, by decide, by decide,
   by decide, by decide, by decide⟩

/-- C8: a successful redeem on a reachable state requires trove debt at
least `amount`, computes `collateral_out = amount * 10^decimals / price`,
requires it positive and covered by the trove collateral, decreases the
trove debt and collateral accordingly (removing the trove exactly when
both reach zero), decrements the asset total debt by `amount`, burns
`amount` of stablecoin from the redeemer, and credits `collateral_out`
to the redeemer's claimable reward instead of transferring it. -/
theorem claim_C8_theorem :
    ∀ (s s1 : Contract) (caller c troveOwner amount now : Nat),
      Reachable s →
      redeem s caller c troveOwner amount now = some s1 →
      ∃ (trove : TroveInternal) (price : PriceFeedInternal),
        alget s.troves (troveOwner, c) = some trove ∧
        alget s.priceFeeds c = some price ∧
        0 < amount ∧
        amount ≤ trove.debtAmount ∧
        amount * decimalsFactor price.decimals < U128LIM ∧
        0 < amount * decimalsFactor price.decimals / price.price ∧
        amount * decimalsFactor price.decimals / price.price ≤ trove.collateralAmount ∧
        (if trove.debtAmount - amount = 0 ∧
            trove.collateralAmount - amount * decimalsFactor price.decimals / price.price
              = 0 then
          alget s1.troves (troveOwner, c) = none
        else
          alget s1.troves (troveOwner, c) = some { trove with debtAmount := trove.debtAmount - amount, collateralAmount := trove.collateralAmount - amount * decimalsFactor price.decimals / price.price, lastUpdateTimestamp := now }) ∧
        amount ≤ tdGet s c ∧
        tdGet s1 c = tdGet s c - amount ∧
        amount ≤ nusdBalance s caller ∧
        nusdBalance s1 caller = nusdBalance s caller - amount ∧
        (alget s1.collateralRewards (caller, c)).getD 0 =
          (alget s.collateralRewards (caller, c)).getD 0 +
            amount * decimalsFactor price.decimals / price.price := by
  intro s s1 caller c troveOwner amount now hreach h
  have hInv := reachable_inv hreach
  simp only [redeem] at h
  split at h
  · exact Option.noConfusion h
  · rename_i hamt
    split at h
    · exact Option.noConfusion h
    · rename_i trove htrove
      split at h
      · rename_i hle
        split at h
        · exact Option.noConfusion h
        · rename_i price hprice
          split at h
          · exact Option.noConfusion h
          · rename_i m hm
            obtain ⟨hmB, hmE⟩ := checkedMul_some hm
            subst hmE
            split at h
            · exact Option.noConfusion h
            · rename_i hout0
              split at h
              · exact Option.noConfusion h
              · rename_i hcollLe
                have hDlt : trove.debtAmount < I128LIM := hInv.debtLt _ (alget_mem htrove)
                rw [i128ofU128_small (lt_of_le_of_lt hle hDlt)] at h
                split at h
                · exact Option.noConfusion h
                · rename_i s2 hatd
                  split at h
                  · exact Option.noConfusion h
                  · rename_i s3 hwd
                    obtain ⟨hwdLe, hwdBal, hwdRw, hwdTd, hwdTr⟩ := nusdWithdraw_spec hwd
                    obtain ⟨henqN, henqTd, henqTr, henqRw⟩ := enqueue_spec h
                    refine ⟨trove, price, htrove, hprice, Nat.pos_of_ne_zero hamt, hle,
                      hmB, Nat.pos_of_ne_zero hout0, Nat.le_of_not_lt hcollLe,
                      ?_, ?_, ?_, ?_, ?_, ?_⟩
                    · revert hatd
                      split
                      · rename_i hzero
                        intro hatd
                        rw [henqTr, hwdTr, (addTotalDebt_frames hatd).1]
                        exact alget_alrem_self _ _
                      · rename_i hnz
                        intro hatd
                        rw [henqTr, hwdTr, (addTotalDebt_frames hatd).1]
                        exact alget_alset_self _ _ _
                    · obtain ⟨hle2, -, -, -, -, -, -, -, -, -, -, -, -, -⟩ :=
                        addTotalDebt_neg (Nat.pos_of_ne_zero hamt) hatd
                      revert hle2
                      revert hatd
                      split <;> intro hatd hle2 <;> exact hle2
                    · obtain ⟨-, htd, -, -, -, -, -, -, -, -, -, -, -, -⟩ :=
                        addTotalDebt_neg (Nat.pos_of_ne_zero hamt) hatd
                      have h1 : tdGet s1 c = tdGet s2 c := by
                        simp only [tdGet, henqTd, hwdTd]
                      rw [h1, htd c, if_pos rfl]
                      revert hatd
                      split <;> intro hatd <;> rfl
                    · have hb2 : nusdBalance s2 caller = nusdBalance s caller := by
                        have hn2 : s2.nusd = s.nusd := by
                          revert hatd
                          split <;> intro hatd <;>
                            exact (addTotalDebt_frames hatd).2.2.2.1
                        simp only [nusdBalance, hn2]
                      rw [← hb2]
                      exact hwdLe
                    · have hb2 : nusdBalance s2 caller = nusdBalance s caller := by
                        have hn2 : s2.nusd = s.nusd := by
                          revert hatd
                          split <;> intro hatd <;>
                            exact (addTotalDebt_frames hatd).2.2.2.1
                        simp only [nusdBalance, hn2]
                      have hb1 : nusdBalance s1 caller = nusdBalance s3 caller := by
                        simp only [nusdBalance, henqN]
                      rw [hb1, hwdBal, hb2]
                    · have hrw2 : s2.collateralRewards = s.collateralRewards := by
                        revert hatd
                        split <;> intro hatd <;>
                          exact (addTotalDebt_frames hatd).2.2.2.2
                      rw [henqRw, hwdRw, hrw2]
      · exact Option.noConfusion h

/-- C8 witness: the redemption of 100 stablecoin against the trove of
owner 10 in the reachable state `sC5` (price 0.05 with 2 decimals, so
`collateral_out = 100 * 100 / 5 = 2000`). -/
theorem claim_C8_witness :
    (Reachable sC5 ∧ redeem sC5 10 5 10 100 0 = some sC6R) ∧
    (∃ (trove : TroveInternal) (price : PriceFeedInternal),
      alget sC5.troves (10, 5) = some trove ∧
      alget sC5.priceFeeds 5 = some price ∧
      0 < 100 ∧
      100 ≤ trove.debtAmount ∧
      100 * decimalsFactor price.decimals < U128LIM ∧
      0 < 100 * decimalsFactor price.decimals / price.price ∧
      100 * decimalsFactor price.decimals / price.price ≤ trove.collateralAmount ∧
      (if trove.debtAmount - 100 = 0 ∧
          trove.collateralAmount - 100 * decimalsFactor price.decimals / price.price
            = 0 then
        alget sC6R.troves (10, 5) = none
      else
        alget sC6R.troves (10, 5) = some { trove with debtAmount := trove.debtAmount - 100, collateralAmount := trove.collateralAmount - 100 * decimalsFactor price.decimals / price.price, lastUpdateTimestamp := 0 }) ∧
      100 ≤ tdGet sC5 5 ∧
      tdGet sC6R 5 = tdGet sC5 5 - 100 ∧
      100 ≤ nusdBalance sC5 10 ∧
      nusdBalance sC6R 10 = nusdBalance sC5 10 - 100 ∧
      (alget sC6R.collateralRewards (10, 5)).getD 0 =
        (alget sC5.collateralRewards (10, 5)).getD 0 +
          100 * decimalsFactor price.decimals / price.price) :=
  ⟨⟨reachable_sC5, by rfl⟩,
   claim_C8_theorem sC5 sC6R 10 5 10 100 0 reachable_sC5 (by rfl)⟩

end CDP
